import Mathlib

/-!
# Verification of the pg_dump conversion engine (harbourbridge)

Shallow embedding of `sources/postgres/pgdump.go` together with the parts of
the `internal.Conv` conversion context that the claims need.  Functions whose
implementation lives outside the provided sources (the `internal.Conv`
bookkeeping methods, the data-row converter boundary and the primary-key
finalizer) are modelled from the specification and marked as such in their
doc comments; everything else is translated function-by-function from
`pgdump.go`.

Dump lines and copy-block payloads are modelled as `List Char` (Go `[]byte`
slices of text); identifiers such as table and column names are Lean
`String`s.
-/

namespace HarbourBridge

/-! ## Byte-string helpers from the Go standard library, specialised to the
constant arguments used in `pgdump.go`. -/

/-- `strings.ReplaceAll(s, "\\\\", "\\")` from `processCopyBlock`: scan left to
right and collapse each non-overlapping doubled-backslash pair into a single
backslash. -/
def collapseDoubleBackslash : List Char → List Char
  | [] => []
  | [c] => [c]
  | a :: b :: rest =>
    if a = '\\' ∧ b = '\\' then '\\' :: collapseDoubleBackslash rest
    else a :: collapseDoubleBackslash (b :: rest)

/-- The inverse convention used by `pg_dump` when it emits copy-block data:
every backslash is doubled. -/
def escapeBackslash : List Char → List Char
  | [] => []
  | c :: rest =>
    if c = '\\' then '\\' :: '\\' :: escapeBackslash rest
    else c :: escapeBackslash rest

/-- A character belonging to the cutset of `strings.Trim(s, "\r\n")`. -/
def isLineTerm (c : Char) : Bool := c = '\r' ∨ c = '\n'

/-- `strings.Trim(s, "\r\n")`: remove the characters of the cutset from both
ends of the string. -/
def goTrimCRLF (l : List Char) : List Char :=
  ((l.dropWhile isLineTerm).reverse.dropWhile isLineTerm).reverse

/-- `strings.Split(s, "\t")`: split on each horizontal tab; always returns at
least one (possibly empty) field. -/
def splitTab : List Char → List (List Char)
  | [] => [[]]
  | c :: rest =>
    if c = '\t' then [] :: splitTab rest
    else
      match splitTab rest with
      | f :: fs => (c :: f) :: fs
      | [] => [[c]]

/-- `trimEscapeChars` from `pgdump.go`: `strings.ReplaceAll(s, "\\n", "\n")`
(the two-character sequence backslash-`n` becomes a newline). -/
def trimEscapeCharsL : List Char → List Char
  | [] => []
  | [c] => [c]
  | a :: b :: rest =>
    if a = '\\' ∧ b = 'n' then '\n' :: trimEscapeCharsL rest
    else a :: trimEscapeCharsL (b :: rest)

/-- `trimQuote` from `pgdump.go`: drop one leading and one trailing double
quote when present. -/
def trimQuoteL (l : List Char) : List Char :=
  let l := match l with
    | '"' :: rest => rest
    | other => other
  match l.reverse with
  | '"' :: rest => rest.reverse
  | _ => l

/-- `trimString` from `pgdump.go`, applied to the payload of a parsed string
node.  (The Go code first strips the `str:` prefix added by the protobuf
serialisation; our AST carries the bare payload, so that step is already
done.) -/
def trimString (s : String) : String :=
  ⟨trimQuoteL (trimEscapeCharsL s.data)⟩

/-! ## The abstract syntax produced by the `pg_query` parser, restricted to
the node shapes `pgdump.go` inspects. -/

/-- `pg_query.RangeVar`: a possibly-qualified table name. -/
structure RangeVar where
  catalogname : String
  schemaname : String
  relname : String
  deriving Repr, DecidableEq

/-- `pg_query.ConstrType` values distinguished by `pgdump.go`. -/
inductive ConstrType where
  | primary
  | foreign
  | unique
  | notnull
  | cdefault
  | otherTy (tag : String)
  deriving Repr, DecidableEq

/-- `pg_query.SortByDir` values distinguished by `toIndexKeys`. -/
inductive SortByDir where
  | asc
  | desc
  | sortOther
  deriving Repr, DecidableEq

/-- `pg_query.AlterTableType` subtypes distinguished by
`processAlterTableStmt`. -/
inductive AlterTableType where
  | setNotNull
  | addConstraint
  | atOther (tag : String)
  deriving Repr, DecidableEq

/-- The `pg_query.Node` variants inspected by `pgdump.go`.  Constructor
arguments flatten the one-field wrapper messages of the protobuf AST
(e.g. `columnDef` carries the fields of `ColumnDef` and of its `TypeName`). -/
inductive PNode where
  /-- `pg_query.String` with its payload. -/
  | pstring (sval : String)
  /-- `pg_query.Integer`. -/
  | pinteger (ival : Int)
  /-- `pg_query.A_Const` wrapping its value node. -/
  | aConst (val : PNode)
  /-- `pg_query.ResTarget` (insert column target). -/
  | resTarget (name : String)
  /-- `pg_query.Constraint`: kind, name, key columns, foreign-key attributes,
  referenced-key attributes, referenced table. -/
  | constraintN (contype : ConstrType) (conname : String) (keys : List PNode)
      (fkAttrs : List PNode) (pkAttrs : List PNode) (pktable : RangeVar)
  /-- `pg_query.ColumnDef` with its `TypeName` fields inlined. -/
  | columnDefN (colname : String) (typeNames : List PNode)
      (typmods : List PNode) (arrayBounds : List PNode)
      (constraints : List PNode)
  /-- `pg_query.AlterTableCmd`. -/
  | alterTableCmdN (subtype : AlterTableType) (name : String)
      (defNode : Option PNode)
  /-- `pg_query.IndexElem`. -/
  | indexElemN (name : String) (ordering : SortByDir)
  /-- `pg_query.List`. -/
  | listN (items : List PNode)
  /-- `pg_query.SelectStmt` as it appears under an insert statement. -/
  | selectStmtN (valuesLists : List PNode)
  /-- Any other node; the tag is what `printNodeType` would print. -/
  | otherN (tag : String)

/-- `printNodeType` for value-level nodes: the Go type name with the
`pg_query.`/`Node_` prefixes trimmed. -/
def printPNodeType : PNode → String
  | .pstring _ => "String_"
  | .pinteger _ => "Integer"
  | .aConst _ => "AConst"
  | .resTarget _ => "ResTarget"
  | .constraintN .. => "Constraint"
  | .columnDefN .. => "ColumnDef"
  | .alterTableCmdN .. => "AlterTableCmd"
  | .indexElemN .. => "IndexElem"
  | .listN _ => "List"
  | .selectStmtN _ => "SelectStmt"
  | .otherN tag => tag

/-- `pg_query.AlterTableStmt`. -/
structure AlterTableStmt where
  relation : Option RangeVar
  cmds : List PNode

/-- `pg_query.CreateStmt`. -/
structure CreateStmt where
  relation : Option RangeVar
  inhRelations : List PNode
  tableElts : List PNode

/-- `pg_query.InsertStmt`. -/
structure InsertStmt where
  relation : Option RangeVar
  cols : List PNode
  selectStmt : PNode

/-- `pg_query.CopyStmt`. -/
structure CopyStmt where
  relation : Option RangeVar
  attlist : List PNode

/-- `pg_query.VariableSetStmt`. -/
structure VariableSetStmt where
  name : String
  args : List PNode

/-- `pg_query.IndexStmt`. -/
structure IndexStmt where
  relation : Option RangeVar
  idxname : String
  unique : Bool
  indexParams : List PNode

/-- A top-level parsed statement (`pg_query.RawStmt.Stmt`), restricted to the
variants `processStatements` dispatches on. -/
inductive PStmt where
  | alterTable (a : AlterTableStmt)
  | copy (c : CopyStmt)
  | create (c : CreateStmt)
  | insertS (i : InsertStmt)
  | variableSet (v : VariableSetStmt)
  | index (ix : IndexStmt)
  | otherS (tag : String)

/-- `printNodeType` for statement nodes. -/
def printStmtType : PStmt → String
  | .alterTable _ => "AlterTableStmt"
  | .copy _ => "CopyStmt"
  | .create _ => "CreateStmt"
  | .insertS _ => "InsertStmt"
  | .variableSet _ => "VariableSetStmt"
  | .index _ => "IndexStmt"
  | .otherS tag => tag

/-! ## Association lists standing in for Go maps. -/

/-- Go map lookup: `m[k]` together with the `ok` flag. -/
def alookup {α : Type} : List (String × α) → String → Option α
  | [], _ => none
  | e :: rest, k => if e.1 = k then some e.2 else alookup rest k

/-- Go map lookup without the `ok` flag: missing keys yield the zero value. -/
def alookupD {α : Type} (m : List (String × α)) (k : String) (d : α) : α :=
  (alookup m k).getD d

/-- Go map assignment `m[k] = v`: replace the binding if present, otherwise
add it. -/
def ainsert {α : Type} : List (String × α) → String → α → List (String × α)
  | [], k, v => [(k, v)]
  | e :: rest, k, v =>
    if e.1 = k then (k, v) :: rest else e :: ainsert rest k v

/-! ## The source-schema model (`schema` package). -/

/-- `schema.Key`: one primary-key or index key column. -/
structure SchemaKey where
  column : String
  desc : Bool := false
  deriving Repr, DecidableEq

/-- `schema.Index`. -/
structure SchemaIndex where
  name : String
  unique : Bool
  keys : List SchemaKey
  deriving Repr, DecidableEq

/-- `schema.ForeignKey`. -/
structure SchemaForeignKey where
  name : String
  columns : List String
  referTable : String
  referColumns : List String
  deriving Repr, DecidableEq

/-- `schema.Type`: source type name with modifiers and array bounds. -/
structure SchemaType where
  name : String := ""
  mods : List Int := []
  arrayBounds : List Int := []
  deriving Repr, DecidableEq

/-- `schema.Column` (the `Ignored` sub-struct is represented by the one flag
`pgdump.go` sets). -/
structure SchemaColumn where
  name : String := ""
  type : SchemaType := {}
  notNull : Bool := false
  ignoredDefault : Bool := false
  deriving Repr, DecidableEq

/-- The zero value `schema.Column{}` produced by a missing map key. -/
def emptyColumn : SchemaColumn := {}

/-- `schema.Table`. -/
structure SchemaTable where
  name : String := ""
  colNames : List String := []
  colDefs : List (String × SchemaColumn) := []
  primaryKeys : List SchemaKey := []
  foreignKeys : List SchemaForeignKey := []
  indexes : List SchemaIndex := []
  deriving Repr, DecidableEq

/-- The zero value `schema.Table{}` produced by a missing map key. -/
def emptyTable : SchemaTable := {}

/-! ## The target (Spanner) schema model (`ddl` package), as far as the
primary-key finalizer touches it. -/

/-- `ddl.IndexKey`. -/
structure IndexKey where
  col : String
  desc : Bool := false
  deriving Repr, DecidableEq

/-- `ddl.ColumnDef` restricted to the fields the finalizer writes: the name
and the scalar type name (`ddl.Int64` for the synthetic column). -/
structure DdlColumnDef where
  name : String
  typeName : String
  deriving Repr, DecidableEq

/-- The `ddl.Int64` type tag. -/
def ddlInt64 : String := "INT64"

/-- `ddl.CreateTable`. -/
structure DdlCreateTable where
  name : String
  colNames : List String
  colDefs : List (String × DdlColumnDef)
  pks : List IndexKey
  deriving Repr, DecidableEq

/-- `internal.SyntheticPKey`: synthetic column name and next sequence value. -/
structure SyntheticPKey where
  col : String
  sequence : Int
  deriving Repr, DecidableEq

/-! ## The conversion context `internal.Conv`.

The `internal` package is not among the provided sources (only its unit
tests are), so the state and its bookkeeping methods are modelled from the
specification (spec §3 "Conv" and the behaviour pinned down by
`TestRows`, `TestStatements`, `TestUnexpecteds`, `TestAddPrimaryKeys`). -/

/-- Modelled from the spec: the mutually exclusive schema/data modes of the
conversion context (`SetSchemaMode`/`SetDataMode`). -/
inductive ConvMode where
  | schemaOnly
  | dataOnly
  deriving Repr, DecidableEq

/-- Modelled from the spec: the conversion context.  Statement tallies are
kept as lists of per-kind diagnostic tags (spec §7: "recorded as a skip with
a per-statement-kind diagnostic tag"); the bounded diagnostics log is
represented by its length; data-row-converter invocations are recorded in
`dataRows` (the converter itself is outside the provided sources). -/
structure Conv where
  mode : ConvMode
  srcSchema : List (String × SchemaTable) := []
  spSchema : List (String × DdlCreateTable) := []
  syntheticPKeys : List (String × SyntheticPKey) := []
  rows : List (String × Nat) := []
  badRows : List (String × Nat) := []
  reparsed : Nat := 0
  unexpecteds : Nat := 0
  schemaStmts : List String := []
  dataStmts : List String := []
  skipStmts : List String := []
  errorStmts : List String := []
  dataRows : List (String × List String × List String) := []
  timezone : String := ""
  deriving Repr, DecidableEq

/-- Modelled from the spec: `conv.SchemaMode()`. -/
def Conv.schemaMode (c : Conv) : Bool :=
  match c.mode with
  | .schemaOnly => true
  | .dataOnly => false

/-- Modelled from the spec: `conv.DataMode()`. -/
def Conv.dataMode (c : Conv) : Bool :=
  match c.mode with
  | .schemaOnly => false
  | .dataOnly => true

/-- Modelled from the spec: `conv.Unexpected(msg)` appends to the bounded
diagnostics log; only the count matters to the claims. -/
def Conv.unexpected (c : Conv) (_msg : String) : Conv :=
  { c with unexpecteds := c.unexpecteds + 1 }

/-- Modelled from the spec: `conv.SkipStatement(tag)`. -/
def Conv.skipStatement (c : Conv) (tag : String) : Conv :=
  { c with skipStmts := c.skipStmts ++ [tag] }

/-- Modelled from the spec: `conv.SchemaStatement(tag)`. -/
def Conv.schemaStatement (c : Conv) (tag : String) : Conv :=
  { c with schemaStmts := c.schemaStmts ++ [tag] }

/-- Modelled from the spec: `conv.DataStatement(tag)`. -/
def Conv.dataStatement (c : Conv) (tag : String) : Conv :=
  { c with dataStmts := c.dataStmts ++ [tag] }

/-- Modelled from the spec: `conv.ErrorInStatement(tag)`. -/
def Conv.errorInStatement (c : Conv) (tag : String) : Conv :=
  { c with errorStmts := c.errorStmts ++ [tag] }

/-- Modelled from the spec: `conv.StatsAddRow(table, b)`.  Spec §4.5: "Every
line read increments the destination table's row counter regardless of
mode", so the mode flag passed at the call sites is recorded in the Go
signature but does not gate the increment. -/
def Conv.statsAddRow (c : Conv) (table : String) (_b : Bool) : Conv :=
  { c with rows := ainsert c.rows table (alookupD c.rows table 0 + 1) }

/-- Modelled from the spec: `conv.StatsAddBadRow(table, b)`, the bad-row
counterpart of `StatsAddRow`. -/
def Conv.statsAddBadRow (c : Conv) (table : String) (_b : Bool) : Conv :=
  { c with badRows := ainsert c.badRows table (alookupD c.badRows table 0 + 1) }

/-- Modelled from the spec: `conv.SetLocation(loc)` records the active time
zone. -/
def Conv.setLocation (c : Conv) (tz : String) : Conv :=
  { c with timezone := tz }

/-- The per-table row count `conv.Stats.Rows[table]`. -/
def Conv.rowCount (c : Conv) (table : String) : Nat :=
  alookupD c.rows table 0

/-- Modelled from the spec: `ProcessDataRow` (the Data Row Converter entry
point, defined in `sources/postgres/data.go`, which is not among the
provided sources).  Spec §4.6 specifies its input contract — table name,
ordered column-name list, parallel raw values — so the model records each
invocation at that boundary. -/
def ProcessDataRow (c : Conv) (table : String) (cols : List String)
    (vals : List String) : Conv :=
  { c with dataRows := c.dataRows ++ [(table, cols, vals)] }

/-- Modelled from the spec: `time.LoadLocation`; time-zone-name validity is
outside the model, so every name is accepted. -/
def loadLocation (tz : String) : Option String := some tz

/-! ## Translation of `sources/postgres/pgdump.go`. -/

/-- `getString`. -/
def getString : PNode → Except String String
  | .pstring s => .ok (trimString s)
  | n => .error ("node " ++ printPNodeType n ++ " is a not String node")

/-- `logStmtError`: one diagnostics-log entry plus one statement error. -/
def logStmtError (c : Conv) (tag : String) (msg : String) : Conv :=
  (c.unexpected ("Processing " ++ tag ++ " statement: " ++ msg)).errorInStatement tag

/-- `getTableName`: catalog/schema/relation components joined with ".",
dropping empty components and the conventional "public" schema; an empty
relation name is an error. -/
def getTableName (n : RangeVar) : Except String String :=
  let l : List String :=
    (if n.catalogname ≠ "" then [n.catalogname] else []) ++
    (if n.schemaname ≠ "" ∧ n.schemaname ≠ "public" then [n.schemaname] else [])
  if n.relname = "" then .error "relname is empty: can't build table name"
  else .ok (String.intercalate "." (l ++ [n.relname]))

/-- `toSchemaKeys` (the `conv` and `table` parameters of the Go function are
unused). -/
def toSchemaKeys (s : List String) : List SchemaKey :=
  s.map (fun k => { column := k })

/-- `toIndexKeys`: `IndexElem` nodes become keys; an empty element name logs
a diagnostic and is dropped; any other node shape is silently skipped. -/
def toIndexKeys (c : Conv) (idxName : String) (s : List PNode) :
    Conv × List SchemaKey :=
  s.foldl (fun acc k =>
    match k with
    | .indexElemN name ordering =>
      if name = "" then
        (acc.1.unexpected ("Failed to process index " ++ idxName ++
          ": empty index column name"), acc.2)
      else
        (acc.1, acc.2 ++ [{ column := name, desc := decide (ordering = .desc) }])
    | _ => acc) (c, [])

/-- The transient `constraint` record of `pgdump.go`. -/
structure Constraint where
  ct : ConstrType
  cols : List String
  name : String := ""
  referCols : List String := []
  referTable : String := ""
  deriving Repr, DecidableEq

/-- `toForeignKeys`. -/
def toForeignKeys (fk : Constraint) : SchemaForeignKey :=
  { name := fk.name, columns := fk.cols, referTable := fk.referTable,
    referColumns := fk.referCols }

/-- `extractConstraints` (the Go `table` parameter is unused). -/
def extractConstraints (c : Conv) (stmtType : String) (l : List PNode) :
    Conv × List Constraint :=
  l.foldl (fun acc i =>
    match i with
    | .constraintN contype conname keys fkAttrs pkAttrs pktable =>
      match contype with
      | .foreign =>
        match getTableName pktable with
        | .error e =>
          ((acc.1.unexpected ("Processing Constraint statement: error processing constraints: " ++ e)).errorInStatement
            "Constraint", acc.2)
        | .ok t =>
          let conName := if conname ≠ "" then conname else ""
          let p1 := fkAttrs.foldl (fun a attr =>
            match getString attr with
            | .ok k => (a.1, a.2 ++ [k])
            | .error e =>
              ((a.1.unexpected ("Processing Constraint statement: error processing constraints: " ++ e)).errorInStatement
                "Constraint", a.2)) (acc.1, ([] : List String))
          let p2 := pkAttrs.foldl (fun a attr =>
            match getString attr with
            | .ok k => (a.1, a.2 ++ [k])
            | .error e =>
              ((a.1.unexpected ("Processing Constraint statement: error processing constraints: " ++ e)).errorInStatement
                "Constraint", a.2)) (p1.1, ([] : List String))
          (p2.1, acc.2 ++ [{ ct := contype, cols := p1.2, name := conName, referCols := p2.2, referTable := t }])
      | _ =>
        let conName := if conname ≠ "" then conname else ""
        let p := keys.foldl (fun a key =>
          match getString key with
          | .ok k => (a.1, a.2 ++ [k])
          | .error e =>
            ((a.1.unexpected ("Processing Constraint statement: error processing constraints: " ++ e)).errorInStatement
              "Constraint.Constraint", a.2)) (acc.1, ([] : List String))
        (p.1, acc.2 ++ [{ ct := contype, cols := p.2, name := conName }])
    | other =>
      (acc.1.unexpected ("Processing " ++ stmtType ++
        " statement: found " ++ printPNodeType other ++
        " node while processing constraints"), acc.2)) (c, [])

/-- `analyzeColDefConstraints`: generic constraint extraction followed by
re-targeting each constraint at the owning column. -/
def analyzeColDefConstraints (c : Conv) (stmtType : String) (l : List PNode)
    (pgCol : String) : Conv × List Constraint :=
  let p := extractConstraints c stmtType l
  p.2.foldl (fun acc con =>
    let cv := if con.cols ≠ [] then acc.1.unexpected "ColumnDef constraint has keys"
      else acc.1
    (cv, acc.2 ++ [{ con with cols := [pgCol] }])) (p.1, [])

/-- `updateCols`: apply constraint kind `ct` to each named column of the
column-definition map (missing names create zero-value columns, as a Go map
read does). -/
def updateCols (ct : ConstrType) (colNames : List String)
    (colDefs : List (String × SchemaColumn)) : List (String × SchemaColumn) :=
  colNames.foldl (fun m c =>
    let cd := alookupD m c emptyColumn
    let cd := match ct with
      | .notnull => { cd with notNull := true }
      | .cdefault => { cd with ignoredDefault := true }
      | _ => cd
    ainsert m c cd) colDefs

/-- `checkEmpty`: warn when a primary key is about to be replaced. -/
def checkEmpty (c : Conv) (pkeys : List SchemaKey) (stmtType : String) : Conv :=
  if pkeys.length ≠ 0 then
    c.unexpected (stmtType ++ " statement is adding a second primary key")
  else c

/-- `updateSchema`: apply a list of extracted constraints to a table. -/
def updateSchema (c : Conv) (table : String) (cs : List Constraint)
    (stmtType : String) : Conv :=
  cs.foldl (fun cv con =>
    match con.ct with
    | .primary =>
      let ct := alookupD cv.srcSchema table emptyTable
      let cv := checkEmpty cv ct.primaryKeys stmtType
      let ct := { ct with primaryKeys := toSchemaKeys con.cols,
                          colDefs := updateCols .notnull con.cols ct.colDefs }
      { cv with srcSchema := ainsert cv.srcSchema table ct }
    | .foreign =>
      let ct := alookupD cv.srcSchema table emptyTable
      let ct := { ct with foreignKeys := ct.foreignKeys ++ [toForeignKeys con] }
      { cv with srcSchema := ainsert cv.srcSchema table ct }
    | .unique =>
      let ct := alookupD cv.srcSchema table emptyTable
      let ct := { ct with indexes := ct.indexes ++
        [{ name := con.name, unique := true, keys := toSchemaKeys con.cols }] }
      { cv with srcSchema := ainsert cv.srcSchema table ct }
    | _ =>
      let ct := alookupD cv.srcSchema table emptyTable
      let ct := { ct with colDefs := updateCols con.ct con.cols ct.colDefs }
      { cv with srcSchema := ainsert cv.srcSchema table ct }) c

/-- `getTypeMods`: integer constants among the type modifiers. -/
def getTypeMods (c : Conv) (t : List PNode) : Conv × List Int :=
  t.foldl (fun acc x =>
    match x with
    | .aConst val =>
      match val with
      | .pinteger i => (acc.1, acc.2 ++ [i])
      | v => (acc.1.unexpected ("Found " ++ printPNodeType v ++
          " node while processing Typmods"), acc.2)
    | v => (acc.1.unexpected ("Found " ++ printPNodeType v ++
        " node while processing Typmods"), acc.2)) (c, [])

/-- `getArrayBounds`. -/
def getArrayBounds (c : Conv) (t : List PNode) : Conv × List Int :=
  t.foldl (fun acc x =>
    match x with
    | .pinteger i => (acc.1, acc.2 ++ [i])
    | v => (acc.1.unexpected ("Found " ++ printPNodeType v ++
        " node while processing ArrayBounds"), acc.2)) (c, [])

/-- `getTypeID`: join the type-name components, dropping a leading
`pg_catalog` qualifier when more components follow. -/
def getTypeID (nodes : List PNode) : Except String String := do
  let ids ← nodes.mapM getString
  let ids := match ids with
    | "pg_catalog" :: x :: xs => x :: xs
    | other => other
  return String.intercalate "." ids

/-- `processColumn`, taking the flattened `ColumnDef` fields. -/
def processColumn (c : Conv) (colname : String)
    (typeNames typmods arrayBounds cdConstraints : List PNode) :
    Conv × Except String (String × SchemaColumn × List Constraint) :=
  let p := getTypeMods c typmods
  if colname = "" then (p.1, .error "colname is empty string")
  else
    match getTypeID typeNames with
    | .error e => (p.1, .error ("can't get type id for " ++ colname ++ ": " ++ e))
    | .ok tid =>
      let q := getArrayBounds p.1 arrayBounds
      let ty : SchemaType := { name := tid, mods := p.2, arrayBounds := q.2 }
      let r := analyzeColDefConstraints q.1 "ColumnDef" cdConstraints colname
      (r.1, .ok (colname, { name := colname, type := ty }, r.2))

/-- The `TableElts` loop of `processCreateStmt`; `none` signals the early
return taken when a column fails to process (after `logStmtError`). -/
def processTableElts :
    List PNode → Conv → List String → List (String × SchemaColumn) →
    List Constraint →
    Conv × Option (List String × List (String × SchemaColumn) × List Constraint)
  | [], c, colNames, colDef, constraints => (c, some (colNames, colDef, constraints))
  | te :: rest, c, colNames, colDef, constraints =>
    match te with
    | .columnDefN colname tns tms abnds cdcs =>
      match processColumn c colname tns tms abnds cdcs with
      | (c, .error e) => (logStmtError c "CreateStmt" e, none)
      | (c, .ok (name, col, cdConstraints)) =>
        processTableElts rest c (colNames ++ [name]) (ainsert colDef name col)
          (constraints ++ cdConstraints)
    | .constraintN .. =>
      let p := extractConstraints c "CreateStmt" [te]
      processTableElts rest p.1 colNames colDef (constraints ++ p.2)
    | other =>
      let c := c.unexpected ("Found " ++ printPNodeType other ++
        " node while processing CreateStmt TableElts")
      processTableElts rest c colNames colDef constraints

/-- `processCreateStmt`. -/
def processCreateStmt (c : Conv) (n : CreateStmt) : Conv :=
  match n.relation with
  | none => logStmtError c "CreateStmt" "relation is nil"
  | some rv =>
    match getTableName rv with
    | .error e => logStmtError c "CreateStmt" ("can't get table name: " ++ e)
    | .ok table =>
      if n.inhRelations.length > 0 then
        (c.skipStatement "CreateStmt").unexpected ("Found inherited table " ++
          table ++ " -- we do not currently handle inherited tables")
      else
        match processTableElts n.tableElts c [] [] [] with
        | (c, none) => c
        | (c, some (colNames, colDef, constraints)) =>
          let c := c.schemaStatement "CreateStmt"
          let newTable : SchemaTable := { name := table, colNames := colNames, colDefs := colDef }
          let c := { c with srcSchema := ainsert c.srcSchema table newTable }
          updateSchema c table constraints "CREATE TABLE"

/-- `processAlterTableStmt`. -/
def processAlterTableStmt (c : Conv) (n : AlterTableStmt) : Conv :=
  match n.relation with
  | none => logStmtError c "AlterTableStmt" "relation is nil"
  | some rv =>
    match getTableName rv with
    | .error e => logStmtError c "AlterTableStmt" ("can't get table name: " ++ e)
    | .ok table =>
      if (alookup c.srcSchema table).isSome then
        n.cmds.foldl (fun cv i =>
          match i with
          | .alterTableCmdN subtype aname defNode =>
            if subtype = .setNotNull ∧ aname ≠ "" then
              let con : Constraint := { ct := .notnull, cols := [aname] }
              let cv := updateSchema cv table [con] "ALTER TABLE"
              cv.schemaStatement "AlterTableStmt.AlterTableCmd"
            else if subtype = .addConstraint ∧ defNode.isSome then
              match defNode with
              | some d =>
                match d with
                | .constraintN .. =>
                  let p := extractConstraints cv "AlterTableStmt" [d]
                  let cv := updateSchema p.1 table p.2 "ALTER TABLE"
                  cv.schemaStatement "AlterTableStmt.AlterTableCmd.Constraint"
                | _ =>
                  cv.skipStatement ("AlterTableStmt.AlterTableCmd." ++ printPNodeType d)
              | none => cv.skipStatement "AlterTableStmt.AlterTableCmd"
            else cv.skipStatement "AlterTableStmt.AlterTableCmd"
          | other =>
            cv.skipStatement ("AlterTableStmt." ++ printPNodeType other)) c
      else
        c.skipStatement "AlterTableStmt"

/-- `getCols`: explicit insert column targets; empty names are skipped and a
non-`ResTarget` node is an error. -/
def getCols : List PNode → Except String (List String)
  | [] => .ok []
  | .resTarget name :: rest =>
    (getCols rest).map (fun cs => if name ≠ "" then name :: cs else cs)
  | n :: _ =>
    .error ("expecting ResTarget node but got " ++ printPNodeType n ++
      " node while processing Cols")

/-- The per-values-list loop of `getRows`: string and integer constants are
collected in order, any other node shape logs a diagnostic and contributes
no value. -/
def getRowValues (c : Conv) : List PNode → Conv × List String
  | [] => (c, [])
  | .aConst (.pstring s) :: rest =>
    let p := getRowValues c rest
    (p.1, trimString s :: p.2)
  | .aConst (.pinteger i) :: rest =>
    let p := getRowValues c rest
    (p.1, toString i :: p.2)
  | .aConst cnode :: rest =>
    getRowValues (c.unexpected ("Processing InsertStmt statement: found " ++
      printPNodeType cnode ++ " node for A_Const Val")) rest
  | other :: rest =>
    getRowValues (c.unexpected ("Processing InsertStmt statement: found " ++
      printPNodeType other ++ " node for ValuesList.Val")) rest

/-- `getRows`: a non-list values entry logs a diagnostic and still yields a
row (which is then empty), exactly as the Go `append` after the switch
does. -/
def getRows (c : Conv) : List PNode → Conv × List (List String)
  | [] => (c, [])
  | .listN items :: rest =>
    let p := getRowValues c items
    let q := getRows p.1 rest
    (q.1, p.2 :: q.2)
  | other :: rest =>
    let q := getRows (c.unexpected ("Processing InsertStmt statement: found " ++
      printPNodeType other ++ " in ValuesList")) rest
    (q.1, [] :: q.2)

/-- The `stmtType` tag of a recognised copy-or-insert statement. -/
inductive StmtKind where
  | copyFrom
  | insertKind
  deriving Repr, DecidableEq

/-- The `copyOrInsert` record of `pgdump.go`. -/
structure CopyOrInsert where
  stmt : StmtKind
  table : String
  cols : List String
  rows : List (List String) := []
  deriving Repr, DecidableEq

/-- `processInsertStmt`. -/
def processInsertStmt (c : Conv) (n : InsertStmt) : Conv × Option CopyOrInsert :=
  match n.relation with
  | none => (logStmtError c "InsertStmt" "relation is nil", none)
  | some rv =>
    match getTableName rv with
    | .error e => (logStmtError c "InsertStmt" ("can't get table name: " ++ e), none)
    | .ok table =>
      if (alookup c.srcSchema table).isNone then
        (c.skipStatement "InsertStmt", none)
      else
        let c := c.statsAddRow table c.schemaMode
        match getCols n.cols with
        | .error e =>
          let c := logStmtError c "InsertStmt" ("can't get col name: " ++ e)
          (c.statsAddBadRow table c.schemaMode, none)
        | .ok colNames =>
          match n.selectStmt with
          | .selectStmtN vll =>
            let p := getRows c vll
            let c := p.1.dataStatement "SelectStmt"
            if c.dataMode then
              (c, some { stmt := .insertKind, table := table, cols := colNames, rows := p.2 })
            else (c, none)
          | other =>
            (c.unexpected ("Found " ++ printPNodeType other ++
              " node while processing InsertStmt SelectStmt"), none)

/-- `processCopyStmt`: always yields a `copyOrInsert` so that the copy-block
data can be consumed even after errors. -/
def processCopyStmt (c : Conv) (n : CopyStmt) : Conv × CopyOrInsert :=
  let p : Conv × String :=
    match n.relation with
    | some rv =>
      match getTableName rv with
      | .ok t => (c, t)
      | .error e =>
        (c.unexpected ("Processing CopyStmt statement: " ++ e),
          "BOGUS_COPY_FROM_TABLE")
    | none => (logStmtError c "CopyStmt" "relation is nil", "BOGUS_COPY_FROM_TABLE")
  let c := p.1
  let table := p.2
  if (alookup c.srcSchema table).isNone then
    (c.skipStatement "CopyStmt", { stmt := .copyFrom, table := table, cols := [] })
  else
    let q := n.attlist.foldl (fun acc a =>
      match getString a with
      | .ok s => (acc.1, acc.2 ++ [s])
      | .error e =>
        (acc.1.unexpected ("Processing CopyStmt statement Attlist: " ++ e),
          acc.2 ++ ["BOGUS_COPY_FROM_COLUMN"])) (c, ([] : List String))
    (q.1.dataStatement "CopyStmt", { stmt := .copyFrom, table := table, cols := q.2 })

/-- `processVariableSetStmt`. -/
def processVariableSetStmt (c : Conv) (n : VariableSetStmt) : Conv :=
  if n.name = "timezone" then
    match n.args with
    | [arg] =>
      match arg with
      | .aConst val =>
        match getString val with
        | .error e => logStmtError c "AConst" ("can't get Arg: " ++ e)
        | .ok tz =>
          match loadLocation tz with
          | none => logStmtError c "AConst" "bad location"
          | some loc => c.setLocation loc
      | other =>
        logStmtError c (printPNodeType other)
          ("found " ++ printPNodeType other ++ " node in Arg")
    | _ => c
  else c

/-- `processIndexStmt`. -/
def processIndexStmt (c : Conv) (n : IndexStmt) : Conv :=
  match n.relation with
  | none => logStmtError c "IndexStmt" "cannot process index statement with nil relation"
  | some rv =>
    match getTableName rv with
    | .error e => logStmtError c "IndexStmt" ("can't get table name: " ++ e)
    | .ok tableName =>
      match alookup c.srcSchema tableName with
      | some ctable =>
        let p := toIndexKeys c n.idxname n.indexParams
        let ct := { ctable with indexes := ctable.indexes ++
          [{ name := n.idxname, unique := n.unique, keys := p.2 }] }
        { p.1 with srcSchema := ainsert p.1.srcSchema tableName ct }
      | none =>
        (c.unexpected ("Table " ++ tableName ++
          " not found while processing index statement")).skipStatement "IndexStmt"

/-- `processStatements`: dispatch over a parsed statement batch, returning
early at the first copy-from or insert statement (the Go
`i != len(rawStmts)-1` test for copy-from is the emptiness of the remaining
suffix). -/
def processStatements (c : Conv) : List PStmt → Conv × Option CopyOrInsert
  | [] => (c, none)
  | s :: rest =>
    match s with
    | .alterTable a =>
      let c := if c.schemaMode then processAlterTableStmt c a else c
      processStatements c rest
    | .copy n =>
      let c :=
        if ¬ rest.isEmpty then
          (c.unexpected "CopyFrom is not the last statement in batch: ignoring following statements").errorInStatement
            "CopyStmt"
        else c
      let p := processCopyStmt c n
      (p.1, some p.2)
    | .create n =>
      let c := if c.schemaMode then processCreateStmt c n else c
      processStatements c rest
    | .insertS n => processInsertStmt c n
    | .variableSet n =>
      let c := if c.schemaMode then processVariableSetStmt c n else c
      processStatements c rest
    | .index n =>
      let c := if c.schemaMode then processIndexStmt c n else c
      processStatements c rest
    | .otherS tag => processStatements (c.skipStatement tag) rest

/-! ## The copy-block decoder and the chunk loop.

The `internal.Reader` implementation is not among the provided sources; it
is modelled from spec §4.1 as the list of remaining raw lines (each line
carrying its terminator, as `ReadLine` produces them).  Reading past the
last line yields an empty byte slice and raises the end-of-stream flag. -/

/-- The data-mode decoding of one copy-block line (`processCopyBlock` lines
150–158): collapse doubled backslashes, trim the line-terminator characters
from the ends, split on horizontal tabs. -/
def decodeCopyLine (b : List Char) : List (List Char) :=
  splitTab (goTrimCRLF (collapseDoubleBackslash b))

/-- The standalone end-of-block marker with a bare line feed. -/
def copyBlockEndLF : List Char := ['\\', '.', '\n']

/-- The standalone end-of-block marker with a carriage-return/line-feed
terminator. -/
def copyBlockEndCRLF : List Char := ['\\', '.', '\r', '\n']

/-- The per-line body of the `processCopyBlock` loop: count the row in every
mode, and hand the decoded values to the data-row converter only in data
mode. -/
def copyBlockLine (c : Conv) (srcTable : String) (srcCols : List String)
    (b : List Char) : Conv :=
  if !(c.statsAddRow srcTable c.schemaMode).dataMode then
    c.statsAddRow srcTable c.schemaMode
  else
    ProcessDataRow (c.statsAddRow srcTable c.schemaMode) srcTable srcCols
      ((decodeCopyLine b).map (fun f => (⟨f⟩ : String)))

/-- `processCopyBlock`: consume raw lines up to the end-of-block marker; an
end of stream inside the block logs a diagnostic and returns normally. -/
def processCopyBlock (srcTable : String) (srcCols : List String) :
    Conv → List (List Char) → Conv × List (List Char)
  | c, [] => (c.unexpected "Reached eof while parsing copy-block", [])
  | c, b :: rest =>
    if b = copyBlockEndLF ∨ b = copyBlockEndCRLF then (c, rest)
    else processCopyBlock srcTable srcCols (copyBlockLine c srcTable srcCols b) rest

/-- The outcome of `readAndParseChunk`: either the consumed bytes, the parsed
statements and the remaining input, or the fatal parse error with the number
of accumulated lines. -/
inductive ChunkResult where
  | okR (bytes : List Char) (stmts : List PStmt) (c : Conv)
      (rest : List (List Char))
  | errorR (linesRead : Nat) (c : Conv)

/-- Whether a chunk outcome is the fatal parse error. -/
def ChunkResult.isError : ChunkResult → Bool
  | .okR .. => false
  | .errorR .. => true

/-- The accumulation loop of `readAndParseChunk`, parameterised by the
external `pg_query.Parse` (`parse` returns `none` on a parse failure).
`acc` holds the lines absorbed so far and the list argument the remaining
input lines. -/
def readAndParseChunkAux (parse : List Char → Option (List PStmt)) :
    Conv → List (List Char) → List (List Char) → ChunkResult
  | c, acc, [] =>
    match parse (acc ++ [[]]).flatten with
    | some stmts => .okR (acc ++ [[]]).flatten stmts c []
    | none => .errorR (acc ++ [[]]).length { c with reparsed := c.reparsed + 1 }
  | c, acc, b :: rest =>
    if b.contains ';' then
      match parse (acc ++ [b]).flatten with
      | some stmts => .okR (acc ++ [b]).flatten stmts c rest
      | none =>
        readAndParseChunkAux parse { c with reparsed := c.reparsed + 1 } (acc ++ [b]) rest
    else readAndParseChunkAux parse c (acc ++ [b]) rest

/-- `readAndParseChunk`. -/
def readAndParseChunk (parse : List Char → Option (List PStmt)) (c : Conv)
    (lines : List (List Char)) : ChunkResult :=
  readAndParseChunkAux parse c [] lines

/-- The dispatch on the result of `processStatements` performed by the
`processPgDump` loop (lines 71–86): a copy-from runs the copy-block decoder;
an insert hands each row to the data-row converter, substituting the full
source-schema column order when the statement listed no columns. -/
def dispatchCopyOrInsert (c : Conv) (ci : Option CopyOrInsert)
    (r : List (List Char)) : Conv × List (List Char) :=
  match ci with
  | none => (c, r)
  | some co =>
    match co.stmt with
    | .copyFrom => processCopyBlock co.table co.cols c r
    | .insertKind =>
      (co.rows.foldl (fun cv vals =>
        if co.cols.length = 0 then
          ProcessDataRow cv co.table (alookupD cv.srcSchema co.table emptyTable).colNames vals
        else ProcessDataRow cv co.table co.cols vals) c, r)

/-! ## The primary-key finalizer.

`internal.Conv.AddPrimaryKeys` is not among the provided sources (only its
unit test `TestAddPrimaryKeys` is); it is modelled from spec §4.7 and from
the expected values of that test. -/

/-- The fixed base name of the synthetic key column, as pinned down by
`TestAddPrimaryKeys`. -/
def synthIdBase : String := "synth_id"

/-- Modelled from the spec: disambiguation of the synthetic column name
against the table's existing column names (§4.7 "named from a fixed base
name disambiguated against existing column names in that table").  The
candidates grow strictly in length, so among the first `used.length + 1` of
them at least one is unused. -/
def disambiguate (base : String) (used : List String) : String :=
  match ((List.range (used.length + 1)).map
      (fun i => base ++ (⟨List.replicate i '0'⟩ : String))).find?
      (fun cand => ! used.contains cand) with
  | some cand => cand
  | none => base

/-- Modelled from the spec: the treatment of a single target-schema table by
`AddPrimaryKeys` (§4.7): a table without a primary key gains a synthetic
integer column, appended last, which becomes its sole primary key; the
second component is the synthetic-key registry entry, with the sequence
counter starting at zero. -/
def addPrimaryKeyToTable (ct : DdlCreateTable) :
    DdlCreateTable × Option SyntheticPKey :=
  if ct.pks.isEmpty then
    let k := disambiguate synthIdBase ct.colNames
    ({ ct with colNames := ct.colNames ++ [k],
               colDefs := ainsert ct.colDefs k { name := k, typeName := ddlInt64 },
               pks := [{ col := k }] },
      some { col := k, sequence := 0 })
  else (ct, none)

/-- One step of the synthetic-key registry update of `AddPrimaryKeys`. -/
def synthStep (m : List (String × SyntheticPKey)) (e : String × DdlCreateTable) :
    List (String × SyntheticPKey) :=
  match (addPrimaryKeyToTable e.2).2 with
  | some sp => ainsert m e.1 sp
  | none => m

/-- Modelled from the spec: `conv.AddPrimaryKeys()` — the post-pass over the
resolved target schema that gives every key-less table a synthetic primary
key and registers its sequence counter (§4.7, `TestAddPrimaryKeys`). -/
def AddPrimaryKeys (c : Conv) : Conv :=
  { c with
    spSchema := c.spSchema.map (fun e => (e.1, (addPrimaryKeyToTable e.2).1)),
    syntheticPKeys := c.spSchema.foldl synthStep c.syntheticPKeys }

/-- Whether a statement is one of the two kinds at which `processStatements`
returns early. -/
def isCopyOrInsertStmt : PStmt → Bool
  | .copy _ => true
  | .insertS _ => true
  | _ => false

/-- The encoding direction of a copy-block row: fields joined by single
horizontal tabs (the inverse of `splitTab` on tab-free fields). -/
def joinTab : List (List Char) → List Char
  | [] => []
  | [f] => f
  | f :: rest => f ++ '\t' :: joinTab rest

/-! ## Concrete sample states used by the witnesses. -/

/-- A two-column source table without a primary key. -/
def sampleTableXY : SchemaTable :=
  { name := "t", colNames := ["x", "y"],
    colDefs := [("x", { name := "x" }), ("y", { name := "y" })] }

/-- A schema-mode conversion context knowing the table `t`. -/
def sampleConv : Conv :=
  { mode := .schemaOnly, srcSchema := [("t", sampleTableXY)] }

/-- The same context in data mode. -/
def sampleConvData : Conv :=
  { sampleConv with mode := .dataOnly }

/-- The target-schema context of `TestAddPrimaryKeys`: one table `table`
with columns `a`, `b` and no primary key. -/
def sampleSpConv : Conv :=
  { mode := .schemaOnly,
    spSchema := [("table",
      { name := "table", colNames := ["a", "b"],
        colDefs := [("a", { name := "a", typeName := "INT64" }),
                    ("b", { name := "b", typeName := "FLOAT64" })],
        pks := [] })] }

/-- A plain reference to the known table `t`. -/
def sampleRangeVar : RangeVar :=
  { catalogname := "", schemaname := "", relname := "t" }

/-- An insert of one literal row into `t` without an explicit column list. -/
def sampleInsertStmt : InsertStmt :=
  { relation := some sampleRangeVar, cols := [],
    selectStmt := .selectStmtN [.listN [.aConst (.pstring "v1"), .aConst (.pinteger 7)]] }

/-- A copy-from of `t` listing both columns. -/
def sampleCopyStmt : CopyStmt :=
  { relation := some sampleRangeVar,
    attlist := [.pstring "x", .pstring "y"] }

/-- A reference to a table `missing` that no statement created. -/
def missingRangeVar : RangeVar :=
  { catalogname := "", schemaname := "", relname := "missing" }

/-! # Theorems -/

/-! ## Association-list (Go map) lemmas. -/

theorem alookup_ainsert_self {α : Type} (m : List (String × α)) (k : String)
    (v : α) : alookup (ainsert m k v) k = some v := by
  induction m with
  | nil => simp [ainsert, alookup]
  | cons e rest ih =>
    by_cases h : e.1 = k
    · simp [ainsert, h, alookup]
    · simp [ainsert, h, alookup, ih]

theorem alookup_ainsert_ne {α : Type} (m : List (String × α)) (k k' : String)
    (v : α) (h : k ≠ k') : alookup (ainsert m k v) k' = alookup m k' := by
  induction m with
  | nil => simp [ainsert, alookup, h]
  | cons e rest ih =>
    by_cases he : e.1 = k
    · simp [ainsert, he, alookup, h]
    · simp [ainsert, he, alookup, ih]

theorem alookupD_ainsert_self {α : Type} (m : List (String × α)) (k : String)
    (v d : α) : alookupD (ainsert m k v) k d = v := by
  simp [alookupD, alookup_ainsert_self]

theorem alookupD_ainsert_ne {α : Type} (m : List (String × α)) (k k' : String)
    (v d : α) (h : k ≠ k') : alookupD (ainsert m k v) k' d = alookupD m k' d := by
  simp [alookupD, alookup_ainsert_ne m k k' v h]

/-! ## `updateCols` sets the not-null flag. -/

theorem updateCols_nil (ct : ConstrType) (m : List (String × SchemaColumn)) :
    updateCols ct [] m = m := rfl

theorem updateCols_notnull_cons (c0 : String) (rest : List String)
    (m : List (String × SchemaColumn)) :
    updateCols .notnull (c0 :: rest) m =
      updateCols .notnull rest
        (ainsert m c0 { alookupD m c0 emptyColumn with notNull := true }) := rfl

theorem updateCols_notnull_preserve :
    ∀ (cols : List String) (m : List (String × SchemaColumn)) (c : String),
    (alookupD m c emptyColumn).notNull = true →
    (alookupD (updateCols .notnull cols m) c emptyColumn).notNull = true := by
  intro cols
  induction cols with
  | nil => intro m c h; exact h
  | cons c0 rest ih =>
    intro m c h
    rw [updateCols_notnull_cons]
    apply ih
    by_cases hc : c0 = c
    · subst hc; rw [alookupD_ainsert_self]
    · rw [alookupD_ainsert_ne _ _ _ _ _ hc]; exact h

theorem updateCols_notnull_mem :
    ∀ (cols : List String) (m : List (String × SchemaColumn)) (c : String),
    c ∈ cols →
    (alookupD (updateCols .notnull cols m) c emptyColumn).notNull = true := by
  intro cols
  induction cols with
  | nil => intro m c h; cases h
  | cons c0 rest ih =>
    intro m c h
    rw [updateCols_notnull_cons]
    rcases List.mem_cons.mp h with h0 | hr
    · subst h0
      exact updateCols_notnull_preserve rest _ c (by rw [alookupD_ainsert_self])
    · exact ih _ c hr

/-! ## `updateSchema` on a primary-key constraint. -/

theorem checkEmpty_srcSchema (c : Conv) (pk : List SchemaKey) (s : String) :
    (checkEmpty c pk s).srcSchema = c.srcSchema := by
  unfold checkEmpty
  split <;> rfl

theorem checkEmpty_unexpecteds (c : Conv) (pk : List SchemaKey) (s : String) :
    (checkEmpty c pk s).unexpecteds =
      c.unexpecteds + (if pk = [] then 0 else 1) := by
  unfold checkEmpty
  rcases pk with _ | ⟨k, tl⟩ <;> simp [Conv.unexpected]

theorem updateSchema_one_primary (conv : Conv) (table s nm rt : String)
    (cols rc : List String) :
    updateSchema conv table
      [{ ct := .primary, cols := cols, name := nm, referCols := rc, referTable := rt }] s =
    { checkEmpty conv (alookupD conv.srcSchema table emptyTable).primaryKeys s with
      srcSchema :=
        ainsert (checkEmpty conv (alookupD conv.srcSchema table emptyTable).primaryKeys s).srcSchema
          table
          { alookupD conv.srcSchema table emptyTable with
            primaryKeys := toSchemaKeys cols,
            colDefs := updateCols .notnull cols
              (alookupD conv.srcSchema table emptyTable).colDefs } } := rfl

theorem updateSchema_cons (conv : Conv) (table s : String) (con : Constraint)
    (cs : List Constraint) :
    updateSchema conv table (con :: cs) s =
      updateSchema (updateSchema conv table [con] s) table cs s := rfl

theorem updateSchema_primary_pk (conv : Conv) (table s nm rt : String)
    (cols rc : List String) :
    (alookupD (updateSchema conv table
      [{ ct := .primary, cols := cols, name := nm, referCols := rc, referTable := rt }] s).srcSchema
      table emptyTable).primaryKeys = toSchemaKeys cols := by
  rw [updateSchema_one_primary]
  simp only [alookupD, alookup_ainsert_self, Option.getD_some]

theorem updateSchema_primary_unexpecteds (conv : Conv) (table s nm rt : String)
    (cols rc : List String) :
    (updateSchema conv table
      [{ ct := .primary, cols := cols, name := nm, referCols := rc, referTable := rt }] s).unexpecteds =
    conv.unexpecteds +
      (if (alookupD conv.srcSchema table emptyTable).primaryKeys = [] then 0 else 1) := by
  rw [updateSchema_one_primary]
  exact checkEmpty_unexpecteds conv _ s

/-- C1: applying a primary-key constraint through `updateSchema` overwrites
the table's existing primary key with the listed columns, adds exactly one
diagnostics-log entry precisely when a primary key already existed, and sets
the not-null flag on every column listed in the new primary key; applying
two primary-key constraints in sequence to a table without a prior key
leaves the second one's columns as the key and logs exactly one
diagnostic. -/
theorem claim1_primary_key_constraint (conv : Conv) (table s nm rt nm2 rt2 : String)
    (cols rc cols2 rc2 : List String) :
    (alookupD (updateSchema conv table
        [{ ct := .primary, cols := cols, name := nm, referCols := rc, referTable := rt }] s).srcSchema
        table emptyTable).primaryKeys = toSchemaKeys cols
    ∧ (updateSchema conv table
        [{ ct := .primary, cols := cols, name := nm, referCols := rc, referTable := rt }] s).unexpecteds =
        conv.unexpecteds +
          (if (alookupD conv.srcSchema table emptyTable).primaryKeys = [] then 0 else 1)
    ∧ (∀ c ∈ cols,
        (alookupD (alookupD (updateSchema conv table
          [{ ct := .primary, cols := cols, name := nm, referCols := rc, referTable := rt }] s).srcSchema
          table emptyTable).colDefs c emptyColumn).notNull = true)
    ∧ ((alookupD conv.srcSchema table emptyTable).primaryKeys = [] → cols ≠ [] →
        (alookupD (updateSchema conv table
          [{ ct := .primary, cols := cols, name := nm, referCols := rc, referTable := rt },
           { ct := .primary, cols := cols2, name := nm2, referCols := rc2, referTable := rt2 }] s).srcSchema
          table emptyTable).primaryKeys = toSchemaKeys cols2
        ∧ (updateSchema conv table
          [{ ct := .primary, cols := cols, name := nm, referCols := rc, referTable := rt },
           { ct := .primary, cols := cols2, name := nm2, referCols := rc2, referTable := rt2 }] s).unexpecteds =
          conv.unexpecteds + 1) := by
  refine ⟨updateSchema_primary_pk conv table s nm rt cols rc,
    updateSchema_primary_unexpecteds conv table s nm rt cols rc, ?_, ?_⟩
  · intro c hc
    rw [updateSchema_one_primary]
    simp only [alookupD, alookup_ainsert_self, Option.getD_some]
    exact updateCols_notnull_mem cols _ c hc
  · intro hempty hcols
    rw [updateSchema_cons]
    refine ⟨updateSchema_primary_pk _ table s nm2 rt2 cols2 rc2, ?_⟩
    rw [updateSchema_primary_unexpecteds _ table s nm2 rt2 cols2 rc2,
      updateSchema_primary_pk conv table s nm rt cols rc,
      updateSchema_primary_unexpecteds conv table s nm rt cols rc, hempty]
    have hne : toSchemaKeys cols ≠ [] := by
      intro h
      exact hcols (List.map_eq_nil_iff.mp h)
    simp [hne]

/-- Witness for C1 at the sample context: a first primary key on `x` logs no
diagnostic and re-keying to `y` logs exactly one, with `x` forced
not-null. -/
theorem claim1_witness :
    (alookupD (updateSchema sampleConv "t"
      [{ ct := .primary, cols := ["x"], name := "", referCols := [], referTable := "" }] "CREATE TABLE").srcSchema
      "t" emptyTable).primaryKeys = toSchemaKeys ["x"]
    ∧ (alookupD (alookupD (updateSchema sampleConv "t"
      [{ ct := .primary, cols := ["x"], name := "", referCols := [], referTable := "" }] "CREATE TABLE").srcSchema
      "t" emptyTable).colDefs "x" emptyColumn).notNull = true
    ∧ (updateSchema sampleConv "t"
      [{ ct := .primary, cols := ["x"], name := "", referCols := [], referTable := "" },
       { ct := .primary, cols := ["y"], name := "", referCols := [], referTable := "" }] "CREATE TABLE").unexpecteds =
      sampleConv.unexpecteds + 1 := by
  have h := claim1_primary_key_constraint sampleConv "t" "CREATE TABLE" "" "" "" ""
    ["x"] [] ["y"] []
  exact ⟨h.1, h.2.2.1 "x" (by simp), (h.2.2.2 (by decide) (by decide)).2⟩

/-! ## C8: unique constraints become unique indexes. -/

theorem updateSchema_one_unique (conv : Conv) (table s nm rt : String)
    (cols rc : List String) :
    updateSchema conv table
      [{ ct := .unique, cols := cols, name := nm, referCols := rc, referTable := rt }] s =
    { conv with srcSchema := ainsert conv.srcSchema table { alookupD conv.srcSchema table emptyTable with indexes := (alookupD conv.srcSchema table emptyTable).indexes ++ [{ name := nm, unique := true, keys := toSchemaKeys cols }] } } := rfl

/-- C8 (amended): for every unique constraint, `updateSchema` appends a
uniqueness-enforcing index — `Unique` flag set, keys taken from the
constrained columns — to the table's index list, carrying the constraint's
name verbatim (so an unnamed constraint yields an index whose name is the
empty string; no name is synthesized here). -/
theorem claim8_unique_constraint_appends_index (conv : Conv)
    (table s nm rt : String) (cols rc : List String) :
    (alookupD (updateSchema conv table
      [{ ct := .unique, cols := cols, name := nm, referCols := rc, referTable := rt }] s).srcSchema
      table emptyTable).indexes =
    (alookupD conv.srcSchema table emptyTable).indexes ++
      [{ name := nm, unique := true, keys := toSchemaKeys cols }] := by
  rw [updateSchema_one_unique]
  simp only [alookupD, alookup_ainsert_self, Option.getD_some]

/-- C8 counterexample: a unique constraint with no name on the known table
`t` is appended as an index whose name is the empty string — `updateSchema`
does not synthesize an index name. -/
theorem claim8_counterexample :
    (alookupD (updateSchema sampleConv "t"
      [{ ct := .unique, cols := ["x"], name := "", referCols := [], referTable := "" }] "ALTER TABLE").srcSchema
      "t" emptyTable).indexes =
    [{ name := "", unique := true, keys := [{ column := "x", desc := false }] }] := by
  decide

/-! ## C4: the primary-key finalizer. -/

theorem disambiguate_not_mem (base : String) (used : List String) :
    disambiguate base used ∉ used := by
  unfold disambiguate
  cases hfind : ((List.range (used.length + 1)).map
      (fun i => base ++ (⟨List.replicate i '0'⟩ : String))).find?
      (fun cand => ! used.contains cand) with
  | some c =>
    have hp := List.find?_some hfind
    simp only [Bool.not_eq_true'] at hp
    simpa using hp
  | none =>
    exfalso
    have hall : ∀ x ∈ ((List.range (used.length + 1)).map
        (fun i => base ++ (⟨List.replicate i '0'⟩ : String))), x ∈ used := by
      intro x hx
      have := List.find?_eq_none.mp hfind x hx
      simpa using this
    have hinj : Function.Injective
        (fun i : Nat => base ++ (⟨List.replicate i '0'⟩ : String)) := by
      intro i j hij
      simp only at hij
      have hdata : base.data ++ List.replicate i '0' =
          base.data ++ List.replicate j '0' := congrArg String.data hij
      have hrep := List.append_cancel_left hdata
      have hlen := congrArg List.length hrep
      simpa using hlen
    have hnd : ((List.range (used.length + 1)).map
        (fun i => base ++ (⟨List.replicate i '0'⟩ : String))).Nodup :=
      List.Nodup.map hinj (List.nodup_range _)
    have hsub : ((List.range (used.length + 1)).map
        (fun i => base ++ (⟨List.replicate i '0'⟩ : String))).toFinset ⊆
        used.toFinset := by
      intro x hx
      rw [List.mem_toFinset] at hx ⊢
      exact hall x hx
    have h1 := List.toFinset_card_of_nodup hnd
    have h2 := List.toFinset_card_le used
    have h3 := Finset.card_le_card hsub
    simp only [List.length_map, List.length_range] at h1
    omega

theorem alookup_map_addpk (m : List (String × DdlCreateTable)) (k : String) :
    alookup (m.map (fun e => (e.1, (addPrimaryKeyToTable e.2).1))) k =
      (alookup m k).map (fun x => (addPrimaryKeyToTable x).1) := by
  induction m with
  | nil => simp [alookup]
  | cons e rest ih => by_cases h : e.1 = k <;> simp [alookup, h, ih]

theorem foldl_synthStep_not_mem :
    ∀ (P : List (String × DdlCreateTable)) (m : List (String × SyntheticPKey))
      (t : String), t ∉ P.map Prod.fst →
    alookup (P.foldl synthStep m) t = alookup m t := by
  intro P
  induction P with
  | nil => intro m t _; rfl
  | cons e rest ih =>
    intro m t h
    simp only [List.map_cons, List.mem_cons] at h
    push_neg at h
    rw [List.foldl_cons, ih _ t h.2]
    rcases h2 : (addPrimaryKeyToTable e.2).2 with _ | sp
    · simp [synthStep, h2]
    · simp only [synthStep, h2]
      exact alookup_ainsert_ne m e.1 t sp (Ne.symm h.1)

theorem foldl_synthStep_lookup :
    ∀ (P : List (String × DdlCreateTable)) (m : List (String × SyntheticPKey))
      (t : String) (ct : DdlCreateTable),
    (P.map Prod.fst).Nodup →
    alookup P t = some ct → ct.pks = [] →
    alookup (P.foldl synthStep m) t =
      some { col := disambiguate synthIdBase ct.colNames, sequence := 0 } := by
  intro P
  induction P with
  | nil => intro m t ct _ h _; simp [alookup] at h
  | cons e rest ih =>
    intro m t ct hnd hlook hpks
    simp only [List.map_cons, List.nodup_cons] at hnd
    rw [List.foldl_cons]
    by_cases h : e.1 = t
    · have hct : e.2 = ct := by simpa [alookup, h] using hlook
      have hrest : t ∉ rest.map Prod.fst := by rw [← h]; exact hnd.1
      rw [foldl_synthStep_not_mem rest _ t hrest]
      have hsome : (addPrimaryKeyToTable e.2).2 =
          some { col := disambiguate synthIdBase ct.colNames, sequence := 0 } := by
        rw [hct]
        unfold addPrimaryKeyToTable
        simp [hpks]
      simp only [synthStep, hsome]
      rw [h]
      exact alookup_ainsert_self m t _
    · have hlook' : alookup rest t = some ct := by
        rw [← hlook]; simp [alookup, h]
      exact ih (synthStep m e) t ct hnd.2 hlook' hpks

/-- C4: after `AddPrimaryKeys`, a target-schema table that lacked a primary
key has exactly one primary-key column — a synthetic integer column whose
name avoids the table's existing column names, appended last in column
order — and its per-table sequence counter is registered starting at
zero. -/
theorem claim4_add_primary_keys (conv : Conv) (table : String)
    (ct : DdlCreateTable)
    (hnd : (conv.spSchema.map Prod.fst).Nodup)
    (hlook : alookup conv.spSchema table = some ct)
    (hpks : ct.pks = []) :
    alookup (AddPrimaryKeys conv).spSchema table =
      some { ct with colNames := ct.colNames ++ [disambiguate synthIdBase ct.colNames], colDefs := ainsert ct.colDefs (disambiguate synthIdBase ct.colNames) { name := disambiguate synthIdBase ct.colNames, typeName := ddlInt64 }, pks := [{ col := disambiguate synthIdBase ct.colNames }] }
    ∧ disambiguate synthIdBase ct.colNames ∉ ct.colNames
    ∧ alookup (AddPrimaryKeys conv).syntheticPKeys table =
        some { col := disambiguate synthIdBase ct.colNames, sequence := 0 } := by
  refine ⟨?_, disambiguate_not_mem _ _, ?_⟩
  · show alookup (conv.spSchema.map (fun e => (e.1, (addPrimaryKeyToTable e.2).1)))
      table = _
    rw [alookup_map_addpk, hlook]
    unfold addPrimaryKeyToTable
    simp [hpks]
  · exact foldl_synthStep_lookup conv.spSchema conv.syntheticPKeys table ct hnd
      hlook hpks

/-- Witness for C4, mirroring `TestAddPrimaryKeys`: the table gains the
column `synth_id`, appended last, as sole primary key, with sequence counter
zero. -/
theorem claim4_witness :
    alookup (AddPrimaryKeys sampleSpConv).spSchema "table" =
      some { name := "table", colNames := ["a", "b", "synth_id"], colDefs := [("a", { name := "a", typeName := "INT64" }), ("b", { name := "b", typeName := "FLOAT64" }), ("synth_id", { name := "synth_id", typeName := "INT64" })], pks := [{ col := "synth_id" }] }
    ∧ ("synth_id" : String) ∉ (["a", "b"] : List String)
    ∧ alookup (AddPrimaryKeys sampleSpConv).syntheticPKeys "table" =
        some { col := "synth_id", sequence := 0 } := by
  have h := claim4_add_primary_keys sampleSpConv "table"
    { name := "table", colNames := ["a", "b"], colDefs := [("a", { name := "a", typeName := "INT64" }), ("b", { name := "b", typeName := "FLOAT64" })], pks := [] }
    (by decide) (by decide) rfl
  have hd : disambiguate synthIdBase ["a", "b"] = "synth_id" := by decide
  rw [hd] at h
  exact ⟨h.1, h.2.1, h.2.2⟩

/-! ## C10: `processStatements` returns at the first copy-from or insert. -/

theorem processStatements_prefix :
    ∀ (pre : List PStmt) (conv : Conv) (stmts : List PStmt),
    (∀ s ∈ pre, isCopyOrInsertStmt s = false) →
    (processStatements conv pre).2 = none ∧
    processStatements conv (pre ++ stmts) =
      processStatements (processStatements conv pre).1 stmts := by
  intro pre
  induction pre with
  | nil => intro conv stmts _; exact ⟨rfl, rfl⟩
  | cons s pre' ih =>
    intro conv stmts hpre
    have hs : isCopyOrInsertStmt s = false := hpre s (by simp)
    have hpre' : ∀ x ∈ pre', isCopyOrInsertStmt x = false := by
      intro x hx
      exact hpre x (by simp [hx])
    cases s with
    | alterTable a =>
      simp only [List.cons_append, processStatements]
      exact ih _ stmts hpre'
    | copy n => simp [isCopyOrInsertStmt] at hs
    | insertS i => simp [isCopyOrInsertStmt] at hs
    | create n =>
      simp only [List.cons_append, processStatements]
      exact ih _ stmts hpre'
    | variableSet v =>
      simp only [List.cons_append, processStatements]
      exact ih _ stmts hpre'
    | index ix =>
      simp only [List.cons_append, processStatements]
      exact ih _ stmts hpre'
    | otherS tag =>
      simp only [List.cons_append, processStatements]
      exact ih _ stmts hpre'

/-- C10: `processStatements` returns at the first copy-from or insert
statement: everything after an insert is dropped with no extra diagnostic
(the result does not depend on the remaining statements at all), a copy-from
that is not last records one diagnostics-log entry and one statement error
before being processed, a copy-from in last position records neither, and a
prefix of other statement kinds is processed without an early return. -/
theorem claim10_early_return (conv : Conv) :
    (∀ (i : InsertStmt) (rest : List PStmt),
      processStatements conv (.insertS i :: rest) = processInsertStmt conv i)
    ∧ (∀ (n : CopyStmt) (rest : List PStmt), rest ≠ [] →
      processStatements conv (.copy n :: rest) =
        ((processCopyStmt ((conv.unexpected "CopyFrom is not the last statement in batch: ignoring following statements").errorInStatement "CopyStmt") n).1,
         some (processCopyStmt ((conv.unexpected "CopyFrom is not the last statement in batch: ignoring following statements").errorInStatement "CopyStmt") n).2))
    ∧ (∀ (n : CopyStmt),
      processStatements conv [.copy n] =
        ((processCopyStmt conv n).1, some (processCopyStmt conv n).2))
    ∧ (∀ (pre stmts : List PStmt),
      (∀ s ∈ pre, isCopyOrInsertStmt s = false) →
      (processStatements conv pre).2 = none ∧
      processStatements conv (pre ++ stmts) =
        processStatements (processStatements conv pre).1 stmts) := by
  refine ⟨fun i rest => rfl, ?_, fun n => rfl, ?_⟩
  · intro n rest hrest
    cases rest with
    | nil => exact absurd rfl hrest
    | cons r rs => simp [processStatements]
  · intro pre stmts hpre
    exact processStatements_prefix pre conv stmts hpre

/-- Witness for C10: concrete batches around the sample statements. -/
theorem claim10_witness :
    processStatements sampleConv [.insertS sampleInsertStmt, .otherS "GrantStmt"] =
      processInsertStmt sampleConv sampleInsertStmt
    ∧ processStatements sampleConv [.copy sampleCopyStmt, .otherS "GrantStmt"] =
      ((processCopyStmt ((sampleConv.unexpected "CopyFrom is not the last statement in batch: ignoring following statements").errorInStatement "CopyStmt") sampleCopyStmt).1,
       some (processCopyStmt ((sampleConv.unexpected "CopyFrom is not the last statement in batch: ignoring following statements").errorInStatement "CopyStmt") sampleCopyStmt).2)
    ∧ (processStatements sampleConv [.otherS "GrantStmt"]).2 = none := by
  have h := claim10_early_return sampleConv
  refine ⟨h.1 sampleInsertStmt [.otherS "GrantStmt"], ?_, ?_⟩
  · exact h.2.1 sampleCopyStmt [.otherS "GrantStmt"] (List.cons_ne_nil _ _)
  · refine (h.2.2.2 [.otherS "GrantStmt"] [] ?_).1
    intro s hs
    simp only [List.mem_singleton] at hs
    subst hs
    rfl

/-! ## C9: inherited tables and unknown-table references are skipped. -/

/-- C9: a create-table statement declaring inheritance is skipped with a
diagnostics-log entry and adds no schema entry, and later statements on a
table absent from the source schema — alter-table, insert and copy — are
each recorded as a per-kind skip, never as a statement error. -/
theorem claim9_inherited_and_unknown_skipped (conv : Conv) :
    (∀ (n : CreateStmt) (rv : RangeVar) (table : String),
      n.relation = some rv → getTableName rv = .ok table → n.inhRelations ≠ [] →
      (processCreateStmt conv n).srcSchema = conv.srcSchema
      ∧ (processCreateStmt conv n).skipStmts = conv.skipStmts ++ ["CreateStmt"]
      ∧ (processCreateStmt conv n).unexpecteds = conv.unexpecteds + 1
      ∧ (processCreateStmt conv n).errorStmts = conv.errorStmts)
    ∧ (∀ (n : AlterTableStmt) (rv : RangeVar) (table : String),
      n.relation = some rv → getTableName rv = .ok table →
      alookup conv.srcSchema table = none →
      processAlterTableStmt conv n = conv.skipStatement "AlterTableStmt")
    ∧ (∀ (n : InsertStmt) (rv : RangeVar) (table : String),
      n.relation = some rv → getTableName rv = .ok table →
      alookup conv.srcSchema table = none →
      processInsertStmt conv n = (conv.skipStatement "InsertStmt", none))
    ∧ (∀ (n : CopyStmt) (rv : RangeVar) (table : String),
      n.relation = some rv → getTableName rv = .ok table →
      alookup conv.srcSchema table = none →
      processCopyStmt conv n =
        (conv.skipStatement "CopyStmt",
         { stmt := .copyFrom, table := table, cols := [], rows := [] })) := by
  refine ⟨?_, ?_, ?_, ?_⟩
  · intro n rv table hrel hname hinh
    have hlen : n.inhRelations.length > 0 := List.length_pos.mpr hinh
    simp only [processCreateStmt, hrel, hname, if_pos hlen]
    exact ⟨rfl, rfl, rfl, rfl⟩
  · intro n rv table hrel hname hlook
    simp only [processAlterTableStmt, hrel, hname, hlook]
    rfl
  · intro n rv table hrel hname hlook
    simp only [processInsertStmt, hrel, hname, hlook]
    rfl
  · intro n rv table hrel hname hlook
    simp only [processCopyStmt, hrel, hname, hlook]
    rfl

/-- Witness for C9: an inherited `CREATE TABLE` and alter/insert/copy on the
unknown table `missing`, over the sample context that only knows `t`. -/
theorem claim9_witness :
    (processCreateStmt sampleConv { relation := some missingRangeVar, inhRelations := [.otherN "RangeVar"], tableElts := [] }).srcSchema = sampleConv.srcSchema
    ∧ processAlterTableStmt sampleConv { relation := some missingRangeVar, cmds := [] } = sampleConv.skipStatement "AlterTableStmt"
    ∧ processInsertStmt sampleConv { relation := some missingRangeVar, cols := [], selectStmt := .selectStmtN [] } = (sampleConv.skipStatement "InsertStmt", none)
    ∧ processCopyStmt sampleConv { relation := some missingRangeVar, attlist := [] } = (sampleConv.skipStatement "CopyStmt", { stmt := .copyFrom, table := "missing", cols := [], rows := [] }) := by
  have h := claim9_inherited_and_unknown_skipped sampleConv
  refine ⟨?_, ?_, ?_, ?_⟩
  · exact (h.1 _ missingRangeVar "missing" rfl rfl (by simp)).1
  · exact h.2.1 _ missingRangeVar "missing" rfl rfl (by decide)
  · exact h.2.2.1 _ missingRangeVar "missing" rfl rfl (by decide)
  · exact h.2.2.2 _ missingRangeVar "missing" rfl rfl (by decide)

/-! ## C5: the copy-block loop. -/

theorem statsAddRow_rowCount (c : Conv) (t : String) (b : Bool) :
    (c.statsAddRow t b).rowCount t = c.rowCount t + 1 := by
  simp only [Conv.statsAddRow, Conv.rowCount]
  exact alookupD_ainsert_self c.rows t _ 0

theorem copyBlockLine_rowCount (c : Conv) (t : String) (cols : List String)
    (b : List Char) :
    (copyBlockLine c t cols b).rowCount t = c.rowCount t + 1 := by
  unfold copyBlockLine
  split
  · exact statsAddRow_rowCount c t c.schemaMode
  · exact statsAddRow_rowCount c t c.schemaMode

theorem copyBlockLine_unexpecteds (c : Conv) (t : String) (cols : List String)
    (b : List Char) :
    (copyBlockLine c t cols b).unexpecteds = c.unexpecteds := by
  unfold copyBlockLine
  split
  · rfl
  · rfl

theorem copyBlockLine_dataRows (c : Conv) (t : String) (cols : List String)
    (b : List Char) :
    (copyBlockLine c t cols b).dataRows = c.dataRows ++
      (if c.mode = .dataOnly then
        [(t, cols, (decodeCopyLine b).map (fun f => (⟨f⟩ : String)))] else []) := by
  unfold copyBlockLine
  cases hmode : c.mode with
  | schemaOnly =>
    have h : (c.statsAddRow t c.schemaMode).dataMode = false := by
      simp [Conv.statsAddRow, Conv.dataMode, hmode]
    rw [h]
    simp [Conv.statsAddRow, hmode]
  | dataOnly =>
    have h : (c.statsAddRow t c.schemaMode).dataMode = true := by
      simp [Conv.statsAddRow, Conv.dataMode, hmode]
    rw [h]
    simp [ProcessDataRow, Conv.statsAddRow, hmode]

theorem processCopyBlock_cons_data (t : String) (cols : List String) (c : Conv)
    (b : List Char) (rest : List (List Char))
    (h1 : b ≠ copyBlockEndLF) (h2 : b ≠ copyBlockEndCRLF) :
    processCopyBlock t cols c (b :: rest) =
      processCopyBlock t cols (copyBlockLine c t cols b) rest := by
  simp [processCopyBlock, h1, h2]

theorem processCopyBlock_marker (t : String) (cols : List String) (c : Conv)
    (m : List Char) (post : List (List Char))
    (hm : m = copyBlockEndLF ∨ m = copyBlockEndCRLF) :
    processCopyBlock t cols c (m :: post) = (c, post) := by
  simp [processCopyBlock, hm]

theorem processCopyBlock_through (t : String) (cols : List String) :
    ∀ (pre : List (List Char)) (c : Conv) (m : List Char)
      (post : List (List Char)),
    (m = copyBlockEndLF ∨ m = copyBlockEndCRLF) →
    (∀ b ∈ pre, b ≠ copyBlockEndLF ∧ b ≠ copyBlockEndCRLF) →
    processCopyBlock t cols c (pre ++ m :: post) =
      (pre.foldl (fun cv b => copyBlockLine cv t cols b) c, post) := by
  intro pre
  induction pre with
  | nil => intro c m post hm _; exact processCopyBlock_marker t cols c m post hm
  | cons b pre' ih =>
    intro c m post hm hpre
    have hb := hpre b (by simp)
    rw [List.cons_append, processCopyBlock_cons_data t cols c b _ hb.1 hb.2,
      ih _ m post hm (fun x hx => hpre x (by simp [hx]))]
    rfl

theorem processCopyBlock_truncated (t : String) (cols : List String) :
    ∀ (pre : List (List Char)) (c : Conv),
    (∀ b ∈ pre, b ≠ copyBlockEndLF ∧ b ≠ copyBlockEndCRLF) →
    processCopyBlock t cols c pre =
      ((pre.foldl (fun cv b => copyBlockLine cv t cols b) c).unexpected
        "Reached eof while parsing copy-block", []) := by
  intro pre
  induction pre with
  | nil => intro c _; rfl
  | cons b pre' ih =>
    intro c hpre
    have hb := hpre b (by simp)
    rw [processCopyBlock_cons_data t cols c b _ hb.1 hb.2,
      ih _ (fun x hx => hpre x (by simp [hx]))]
    rfl

theorem foldl_copyBlockLine_rowCount (t : String) (cols : List String) :
    ∀ (pre : List (List Char)) (c : Conv),
    (pre.foldl (fun cv b => copyBlockLine cv t cols b) c).rowCount t =
      c.rowCount t + pre.length := by
  intro pre
  induction pre with
  | nil => intro c; rfl
  | cons b pre' ih =>
    intro c
    rw [List.foldl_cons, ih, copyBlockLine_rowCount, List.length_cons]
    omega

theorem foldl_copyBlockLine_unexpecteds (t : String) (cols : List String) :
    ∀ (pre : List (List Char)) (c : Conv),
    (pre.foldl (fun cv b => copyBlockLine cv t cols b) c).unexpecteds =
      c.unexpecteds := by
  intro pre
  induction pre with
  | nil => intro c; rfl
  | cons b pre' ih =>
    intro c
    rw [List.foldl_cons, ih, copyBlockLine_unexpecteds]

/-- C5: inside a copy block, every line before the end marker increments the
destination table's row counter (whatever the mode, since the context is
universally quantified); the block ends at the first line equal to the
standalone marker with either line-ending convention, leaving the rest of
the stream untouched; and reaching end of stream inside the block adds one
diagnostics-log entry while still counting every line and returning
normally. -/
theorem claim5_copy_block_lines (conv : Conv) (t : String) (cols : List String)
    (pre post : List (List Char)) (m : List Char)
    (hm : m = copyBlockEndLF ∨ m = copyBlockEndCRLF)
    (hpre : ∀ b ∈ pre, b ≠ copyBlockEndLF ∧ b ≠ copyBlockEndCRLF) :
    ((processCopyBlock t cols conv (pre ++ m :: post)).2 = post
     ∧ (processCopyBlock t cols conv (pre ++ m :: post)).1.rowCount t =
        conv.rowCount t + pre.length
     ∧ (processCopyBlock t cols conv (pre ++ m :: post)).1.unexpecteds =
        conv.unexpecteds)
    ∧ ((processCopyBlock t cols conv pre).2 = []
     ∧ (processCopyBlock t cols conv pre).1.rowCount t =
        conv.rowCount t + pre.length
     ∧ (processCopyBlock t cols conv pre).1.unexpecteds =
        conv.unexpecteds + 1) := by
  rw [processCopyBlock_through t cols pre conv m post hm hpre,
    processCopyBlock_truncated t cols pre conv hpre]
  refine ⟨⟨rfl, ?_, ?_⟩, rfl, ?_, ?_⟩
  · exact foldl_copyBlockLine_rowCount t cols pre conv
  · exact foldl_copyBlockLine_unexpecteds t cols pre conv
  · exact foldl_copyBlockLine_rowCount t cols pre conv
  · have h := foldl_copyBlockLine_unexpecteds t cols pre conv
    simp [Conv.unexpected, h]

/-- Witness for C5: a two-line block for `t` terminated by the bare-LF
marker, and the same two lines truncated by end of stream, in data mode. -/
theorem claim5_witness :
    ((processCopyBlock "t" ["x", "y"] sampleConvData
        (["a\tb\n".data, "c\td\n".data] ++ copyBlockEndLF :: ["z\n".data])).2 = ["z\n".data]
     ∧ (processCopyBlock "t" ["x", "y"] sampleConvData
        (["a\tb\n".data, "c\td\n".data] ++ copyBlockEndLF :: ["z\n".data])).1.rowCount "t" =
        sampleConvData.rowCount "t" + 2
     ∧ (processCopyBlock "t" ["x", "y"] sampleConvData
        (["a\tb\n".data, "c\td\n".data] ++ copyBlockEndLF :: ["z\n".data])).1.unexpecteds =
        sampleConvData.unexpecteds)
    ∧ ((processCopyBlock "t" ["x", "y"] sampleConvData
        ["a\tb\n".data, "c\td\n".data]).2 = []
     ∧ (processCopyBlock "t" ["x", "y"] sampleConvData
        ["a\tb\n".data, "c\td\n".data]).1.rowCount "t" =
        sampleConvData.rowCount "t" + 2
     ∧ (processCopyBlock "t" ["x", "y"] sampleConvData
        ["a\tb\n".data, "c\td\n".data]).1.unexpecteds =
        sampleConvData.unexpecteds + 1) := by
  exact claim5_copy_block_lines sampleConvData "t" ["x", "y"]
    ["a\tb\n".data, "c\td\n".data] ["z\n".data] copyBlockEndLF
    (Or.inl rfl) (by decide)

/-! ## C6: inserts and copies are tallied in both modes, converted only in
data mode. -/

theorem getRowValues_only_unexpecteds :
    ∀ (items : List PNode) (c : Conv),
    (getRowValues c items).1 =
      { c with unexpecteds := (getRowValues c items).1.unexpecteds } := by
  intro items
  induction items with
  | nil => intro c; rfl
  | cons v rest ih =>
    intro c
    cases v with
    | aConst val =>
      cases val with
      | pstring s => simpa only [getRowValues] using ih c
      | pinteger i => simpa only [getRowValues] using ih c
      | aConst w => simpa only [getRowValues] using ih _
      | resTarget nm => simpa only [getRowValues] using ih _
      | constraintN a b x y z w => simpa only [getRowValues] using ih _
      | columnDefN a b x y z => simpa only [getRowValues] using ih _
      | alterTableCmdN a b x => simpa only [getRowValues] using ih _
      | indexElemN a b => simpa only [getRowValues] using ih _
      | listN l => simpa only [getRowValues] using ih _
      | selectStmtN l => simpa only [getRowValues] using ih _
      | otherN tg => simpa only [getRowValues] using ih _
    | pstring s => simpa only [getRowValues] using ih _
    | pinteger i => simpa only [getRowValues] using ih _
    | resTarget nm => simpa only [getRowValues] using ih _
    | constraintN a b x y z w => simpa only [getRowValues] using ih _
    | columnDefN a b x y z => simpa only [getRowValues] using ih _
    | alterTableCmdN a b x => simpa only [getRowValues] using ih _
    | indexElemN a b => simpa only [getRowValues] using ih _
    | listN l => simpa only [getRowValues] using ih _
    | selectStmtN l => simpa only [getRowValues] using ih _
    | otherN tg => simpa only [getRowValues] using ih _

theorem getRows_only_unexpecteds :
    ∀ (vll : List PNode) (c : Conv),
    (getRows c vll).1 =
      { c with unexpecteds := (getRows c vll).1.unexpecteds } := by
  intro vll
  induction vll with
  | nil => intro c; rfl
  | cons v rest ih =>
    intro c
    cases v with
    | listN items =>
      simp only [getRows]
      rw [ih ((getRowValues c items).1)]
      rw [getRowValues_only_unexpecteds items c]
    | pstring s => simpa only [getRows] using ih _
    | pinteger i => simpa only [getRows] using ih _
    | aConst w => simpa only [getRows] using ih _
    | resTarget nm => simpa only [getRows] using ih _
    | constraintN a b x y z w => simpa only [getRows] using ih _
    | columnDefN a b x y z => simpa only [getRows] using ih _
    | alterTableCmdN a b x => simpa only [getRows] using ih _
    | indexElemN a b => simpa only [getRows] using ih _
    | selectStmtN l => simpa only [getRows] using ih _
    | otherN tg => simpa only [getRows] using ih _

/-- C6: a recognised insert statement increments its table's row counter in
every mode (the context is universally quantified) but returns row values
for conversion exactly when the context is in data mode; and a copy-block
line likewise always increments the row counter while its decoded values
reach the data-row converter exactly in data mode. -/
theorem claim6_tally_always_convert_in_data_mode (conv : Conv) :
    (∀ (n : InsertStmt) (rv : RangeVar) (table : String) (tb : SchemaTable)
       (colNames : List String) (vll : List PNode),
      n.relation = some rv → getTableName rv = .ok table →
      alookup conv.srcSchema table = some tb →
      getCols n.cols = .ok colNames →
      n.selectStmt = .selectStmtN vll →
      (processInsertStmt conv n).1.rowCount table = conv.rowCount table + 1
      ∧ ((processInsertStmt conv n).2.isSome = true ↔ conv.mode = .dataOnly))
    ∧ (∀ (t : String) (cols : List String) (b : List Char),
      (copyBlockLine conv t cols b).rowCount t = conv.rowCount t + 1
      ∧ (copyBlockLine conv t cols b).dataRows = conv.dataRows ++
          (if conv.mode = .dataOnly then
            [(t, cols, (decodeCopyLine b).map (fun f => (⟨f⟩ : String)))]
          else [])) := by
  constructor
  · intro n rv table tb colNames vll hrel hname hlook hcols hsel
    have hgr := getRows_only_unexpecteds vll (conv.statsAddRow table conv.schemaMode)
    simp only [processInsertStmt, hrel, hname, hlook, hcols, hsel,
      Option.isNone_some, Bool.false_eq_true, if_false]
    constructor
    · split
      · rw [show ∀ (cv : Conv) (tg : String), (cv.dataStatement tg).rowCount table = cv.rowCount table from fun _ _ => rfl]
        rw [hgr]
        exact statsAddRow_rowCount conv table conv.schemaMode
      · rw [show ∀ (cv : Conv) (tg : String), (cv.dataStatement tg).rowCount table = cv.rowCount table from fun _ _ => rfl]
        rw [hgr]
        exact statsAddRow_rowCount conv table conv.schemaMode
    · have hmode : ((getRows (conv.statsAddRow table conv.schemaMode) vll).1.dataStatement "SelectStmt").dataMode = conv.dataMode := by
        rw [show ∀ (cv : Conv) (tg : String), (cv.dataStatement tg).dataMode = cv.dataMode from fun _ _ => rfl]
        rw [hgr]
        rfl
      split
      · rename_i hd
        simp only [Option.isSome_some, true_iff]
        rw [hmode] at hd
        cases hm : conv.mode with
        | schemaOnly => rw [show conv.dataMode = false by simp [Conv.dataMode, hm]] at hd; cases hd
        | dataOnly => rfl
      · rename_i hd
        simp only [Option.isSome_none, Bool.false_eq_true, false_iff]
        rw [hmode] at hd
        intro hm
        exact hd (by simp [Conv.dataMode, hm])
  · intro t cols b
    exact ⟨copyBlockLine_rowCount conv t cols b, copyBlockLine_dataRows conv t cols b⟩

/-- Witness for C6: the sample insert into `t` in both sample contexts, and
one copy-block line in both contexts. -/
theorem claim6_witness :
    ((processInsertStmt sampleConv sampleInsertStmt).1.rowCount "t" =
      sampleConv.rowCount "t" + 1
     ∧ (processInsertStmt sampleConv sampleInsertStmt).2.isSome = false)
    ∧ ((processInsertStmt sampleConvData sampleInsertStmt).1.rowCount "t" =
      sampleConvData.rowCount "t" + 1
     ∧ (processInsertStmt sampleConvData sampleInsertStmt).2.isSome = true)
    ∧ (copyBlockLine sampleConv "t" ["x", "y"] "a\tb\n".data).dataRows =
        sampleConv.dataRows
    ∧ (copyBlockLine sampleConvData "t" ["x", "y"] "a\tb\n".data).dataRows =
        sampleConvData.dataRows ++ [("t", ["x", "y"], ["a", "b"])] := by
  have h1 := (claim6_tally_always_convert_in_data_mode sampleConv).1
    sampleInsertStmt sampleRangeVar "t" sampleTableXY [] _ rfl rfl (by decide) rfl rfl
  have h2 := (claim6_tally_always_convert_in_data_mode sampleConvData).1
    sampleInsertStmt sampleRangeVar "t" sampleTableXY [] _ rfl rfl (by decide) rfl rfl
  have h3 := ((claim6_tally_always_convert_in_data_mode sampleConv).2
    "t" ["x", "y"] "a\tb\n".data).2
  have h4 := ((claim6_tally_always_convert_in_data_mode sampleConvData).2
    "t" ["x", "y"] "a\tb\n".data).2
  refine ⟨⟨h1.1, ?_⟩, ⟨h2.1, ?_⟩, ?_, ?_⟩
  · cases hs : (processInsertStmt sampleConv sampleInsertStmt).2.isSome
    · rfl
    · exact absurd (h1.2.mp hs) (by decide)
  · exact h2.2.mpr rfl
  · rw [h3]; decide
  · rw [h4]; decide

/-! ## C7: the column list handed to the data-row converter. -/

theorem foldl_processDataRow_schema_cols :
    ∀ (rows : List (List String)) (cv : Conv) (tbl : String),
    (rows.foldl (fun cv vals =>
      ProcessDataRow cv tbl (alookupD cv.srcSchema tbl emptyTable).colNames vals) cv).dataRows =
      cv.dataRows ++ rows.map (fun vals =>
        (tbl, (alookupD cv.srcSchema tbl emptyTable).colNames, vals)) := by
  intro rows
  induction rows with
  | nil => intro cv tbl; simp
  | cons vals rest ih =>
    intro cv tbl
    rw [List.foldl_cons, ih]
    simp [ProcessDataRow]

theorem foldl_processDataRow_fixed_cols :
    ∀ (rows : List (List String)) (cv : Conv) (tbl : String) (cols : List String),
    (rows.foldl (fun cv vals => ProcessDataRow cv tbl cols vals) cv).dataRows =
      cv.dataRows ++ rows.map (fun vals => (tbl, cols, vals)) := by
  intro rows
  induction rows with
  | nil => intro cv tbl cols; simp
  | cons vals rest ih =>
    intro cv tbl cols
    rw [List.foldl_cons, ih]
    simp [ProcessDataRow]

/-- C7: when the insert statement listed no columns, every row reaches the
data-row converter with the full ordered column sequence of the resolved
source schema for that table; when it listed columns, exactly that ordered
list is used; and `getCols` returns the statement's explicit targets in
order. -/
theorem claim7_insert_column_lists (conv : Conv) :
    (∀ (co : CopyOrInsert) (r : List (List Char)),
      co.stmt = .insertKind → co.cols = [] →
      (dispatchCopyOrInsert conv (some co) r).1.dataRows =
        conv.dataRows ++ co.rows.map (fun vals =>
          (co.table, (alookupD conv.srcSchema co.table emptyTable).colNames, vals)))
    ∧ (∀ (co : CopyOrInsert) (r : List (List Char)),
      co.stmt = .insertKind → co.cols ≠ [] →
      (dispatchCopyOrInsert conv (some co) r).1.dataRows =
        conv.dataRows ++ co.rows.map (fun vals => (co.table, co.cols, vals)))
    ∧ (∀ (names : List String), (∀ nm ∈ names, nm ≠ "") →
      getCols (names.map PNode.resTarget) = .ok names) := by
  refine ⟨?_, ?_, ?_⟩
  · rintro ⟨st, tbl, cols, rows⟩ r hst hcols
    cases hst
    cases hcols
    simp only [dispatchCopyOrInsert, List.length_nil, if_true]
    exact foldl_processDataRow_schema_cols rows conv tbl
  · rintro ⟨st, tbl, cols, rows⟩ r hst hcols
    cases hst
    have hlen0 : (cols.length = 0) = False :=
      eq_false (fun h => hcols (List.length_eq_zero.mp h))
    simp only [dispatchCopyOrInsert, hlen0, if_false]
    exact foldl_processDataRow_fixed_cols rows conv tbl cols
  · intro names
    induction names with
    | nil => intro _; rfl
    | cons nm rest ih =>
      intro h
      have hnm : nm ≠ "" := h nm (by simp)
      have hrest := ih (fun x hx => h x (by simp [hx]))
      simp only [List.map_cons, getCols, hrest, Except.map, hnm]
      simp [hnm]

/-- Witness for C7: one two-value row into `t` with no explicit columns uses
the schema order `x, y`; an explicit single column `y` is used verbatim;
`getCols` extracts explicit names in order. -/
theorem claim7_witness :
    (dispatchCopyOrInsert sampleConvData
      (some { stmt := .insertKind, table := "t", cols := [], rows := [["1", "2"]] })
      []).1.dataRows =
      sampleConvData.dataRows ++ [("t", ["x", "y"], ["1", "2"])]
    ∧ (dispatchCopyOrInsert sampleConvData
      (some { stmt := .insertKind, table := "t", cols := ["y"], rows := [["9"]] })
      []).1.dataRows =
      sampleConvData.dataRows ++ [("t", ["y"], ["9"])]
    ∧ getCols ([("a" : String), "b"].map PNode.resTarget) = .ok ["a", "b"] := by
  have h := claim7_insert_column_lists sampleConvData
  refine ⟨?_, ?_, ?_⟩
  · rw [h.1 { stmt := .insertKind, table := "t", cols := [], rows := [["1", "2"]] } [] rfl rfl]
    decide
  · rw [h.2.1 { stmt := .insertKind, table := "t", cols := ["y"], rows := [["9"]] } [] rfl (by decide)]
    decide
  · exact h.2.2 ["a", "b"] (by decide)

/-! ## C3: copy-block data-line decoding. -/

theorem collapse_cons_ne (a : Char) (l : List Char) (ha : a ≠ '\\') :
    collapseDoubleBackslash (a :: l) = a :: collapseDoubleBackslash l := by
  cases l with
  | nil => rfl
  | cons b rest =>
    have h : ¬ (a = '\\' ∧ b = '\\') := fun hh => ha hh.1
    simp only [collapseDoubleBackslash, if_neg h]

theorem collapse_cons₂ (a b : Char) (x : List Char)
    (h : ¬ (a = '\\' ∧ b = '\\')) :
    collapseDoubleBackslash (a :: b :: x) =
      a :: collapseDoubleBackslash (b :: x) := by
  simp only [collapseDoubleBackslash, if_neg h]

theorem collapse_bb (x : List Char) :
    collapseDoubleBackslash ('\\' :: '\\' :: x) =
      '\\' :: collapseDoubleBackslash x := by
  simp [collapseDoubleBackslash]

theorem collapse_append_single (c : Char) (hc : c ≠ '\\') :
    (l : List Char) →
    collapseDoubleBackslash (l ++ [c]) = collapseDoubleBackslash l ++ [c]
  | [] => by simp [collapseDoubleBackslash]
  | [a] => by
    have h : ¬ (a = '\\' ∧ c = '\\') := fun hh => hc hh.2
    simp only [List.cons_append, List.nil_append, collapseDoubleBackslash, if_neg h]
  | a :: b :: rest => by
    by_cases h : a = '\\' ∧ b = '\\'
    · obtain ⟨ha, hb⟩ := h
      subst ha
      subst hb
      rw [show ('\\' :: '\\' :: rest) ++ [c] = '\\' :: '\\' :: (rest ++ [c]) from rfl]
      rw [collapse_bb (rest ++ [c]), collapse_append_single c hc rest,
        collapse_bb rest]
      rfl
    · rw [show (a :: b :: rest) ++ [c] = a :: b :: (rest ++ [c]) from rfl]
      rw [collapse_cons₂ a b (rest ++ [c]) h]
      rw [show b :: (rest ++ [c]) = (b :: rest) ++ [c] from rfl]
      rw [collapse_append_single c hc (b :: rest)]
      rw [collapse_cons₂ a b rest h]
      rfl

theorem collapse_subset :
    (l : List Char) → ∀ c ∈ collapseDoubleBackslash l, c ∈ l
  | [] => by simp [collapseDoubleBackslash]
  | [a] => by simp [collapseDoubleBackslash]
  | a :: b :: rest => by
    intro c hc
    by_cases h : a = '\\' ∧ b = '\\'
    · simp only [collapseDoubleBackslash, if_pos h] at hc
      rcases List.mem_cons.mp hc with h1 | h2
      · subst h1; simp [h.1]
      · simp only [List.mem_cons]
        exact Or.inr (Or.inr (collapse_subset rest c h2))
    · simp only [collapseDoubleBackslash, if_neg h] at hc
      rcases List.mem_cons.mp hc with h1 | h2
      · subst h1; simp
      · simp only [List.mem_cons]
        rcases List.mem_cons.mp (collapse_subset (b :: rest) c h2) with h3 | h4
        · exact Or.inr (Or.inl h3)
        · exact Or.inr (Or.inr h4)

theorem escape_double_backslash (tl : List Char) :
    escapeBackslash ('\\' :: tl) = '\\' :: '\\' :: escapeBackslash tl := by
  simp [escapeBackslash]

theorem escape_cons_ne (a : Char) (tl : List Char) (h : a ≠ '\\') :
    escapeBackslash (a :: tl) = a :: escapeBackslash tl := by
  simp [escapeBackslash, h]

theorem collapse_double_cons (x : List Char) :
    collapseDoubleBackslash ('\\' :: '\\' :: x) =
      '\\' :: collapseDoubleBackslash x := by
  simp [collapseDoubleBackslash]

theorem collapse_escape (rest : List Char) :
    ∀ (l : List Char),
    collapseDoubleBackslash (escapeBackslash l ++ rest) =
      l ++ collapseDoubleBackslash rest := by
  intro l
  induction l with
  | nil => simp [escapeBackslash]
  | cons c tl ih =>
    by_cases h : c = '\\'
    · subst h
      rw [escape_double_backslash]
      rw [show ('\\' :: '\\' :: escapeBackslash tl) ++ rest =
        '\\' :: '\\' :: (escapeBackslash tl ++ rest) from rfl]
      rw [collapse_double_cons, ih]
      rfl
    · rw [escape_cons_ne c tl h]
      rw [show (c :: escapeBackslash tl) ++ rest =
        c :: (escapeBackslash tl ++ rest) from rfl]
      rw [collapse_cons_ne c _ h, ih]
      rfl

theorem escape_subset :
    ∀ (l : List Char), ∀ c ∈ escapeBackslash l, c ∈ l ∨ c = '\\' := by
  intro l
  induction l with
  | nil => intro c hc; simp [escapeBackslash] at hc
  | cons a tl ih =>
    intro c hc
    by_cases h : a = '\\'
    · rw [h, escape_double_backslash] at hc
      rcases List.mem_cons.mp hc with h1 | h1
      · exact Or.inr h1
      rcases List.mem_cons.mp h1 with h2 | h2
      · exact Or.inr h2
      rcases ih c h2 with h3 | h3
      · exact Or.inl (List.mem_cons.mpr (Or.inr h3))
      · exact Or.inr h3
    · rw [escape_cons_ne a tl h] at hc
      rcases List.mem_cons.mp hc with h1 | h1
      · exact Or.inl (by simp [h1])
      rcases ih c h1 with h3 | h3
      · exact Or.inl (List.mem_cons.mpr (Or.inr h3))
      · exact Or.inr h3

theorem splitTab_no_tab :
    ∀ (f : List Char), (∀ c ∈ f, c ≠ '\t') → splitTab f = [f] := by
  intro f
  induction f with
  | nil => intro _; rfl
  | cons c rest ih =>
    intro h
    have hc : c ≠ '\t' := h c (by simp)
    simp only [splitTab, if_neg hc]
    rw [ih (fun x hx => h x (by simp [hx]))]

theorem splitTab_sep :
    ∀ (f : List Char) (rest : List Char), (∀ c ∈ f, c ≠ '\t') →
    splitTab (f ++ '\t' :: rest) = f :: splitTab rest := by
  intro f
  induction f with
  | nil =>
    intro rest _
    simp [splitTab]
  | cons c f' ih =>
    intro rest h
    have hc : c ≠ '\t' := h c (by simp)
    rw [show (c :: f') ++ '\t' :: rest = c :: (f' ++ '\t' :: rest) from rfl]
    simp only [splitTab, if_neg hc]
    rw [ih rest (fun x hx => h x (by simp [hx]))]

theorem splitTab_joinTab :
    ∀ (fields : List (List Char)), fields ≠ [] →
    (∀ f ∈ fields, ∀ c ∈ f, c ≠ '\t') →
    splitTab (joinTab fields) = fields := by
  intro fields
  induction fields with
  | nil => intro h _; exact absurd rfl h
  | cons f rest ih =>
    intro _ h
    cases rest with
    | nil => exact splitTab_no_tab f (h f (by simp))
    | cons g rest' =>
      show splitTab (f ++ '\t' :: joinTab (g :: rest')) = f :: g :: rest'
      rw [splitTab_sep f _ (h f (by simp))]
      rw [ih (List.cons_ne_nil g rest') (fun x hx => h x (by simp [hx]))]

theorem mem_joinTab :
    ∀ (fields : List (List Char)), ∀ c ∈ joinTab fields,
    c = '\t' ∨ ∃ f ∈ fields, c ∈ f := by
  intro fields
  induction fields with
  | nil => simp [joinTab]
  | cons f rest ih =>
    intro c hc
    cases rest with
    | nil =>
      exact Or.inr ⟨f, by simp, hc⟩
    | cons g rest' =>
      have hsplit : c ∈ f ++ '\t' :: joinTab (g :: rest') := hc
      rcases List.mem_append.mp hsplit with h1 | h2
      · exact Or.inr ⟨f, by simp, h1⟩
      · rcases List.mem_cons.mp h2 with h3 | h4
        · exact Or.inl h3
        · rcases ih c h4 with h5 | ⟨ff, hff, hcff⟩
          · exact Or.inl h5
          · exact Or.inr ⟨ff, by simp [hff], hcff⟩

theorem dropWhile_eq_self_all {p : Char → Bool} :
    ∀ (l : List Char), (∀ c ∈ l, p c = false) → l.dropWhile p = l := by
  intro l
  cases l with
  | nil => intro _; rfl
  | cons a t =>
    intro h
    exact List.dropWhile_cons_of_neg (by simp [h a (by simp)])

theorem goTrimCRLF_append_newline (body : List Char)
    (h : ∀ c ∈ body, isLineTerm c = false) :
    goTrimCRLF (body ++ ['\n']) = body := by
  unfold goTrimCRLF
  cases body with
  | nil => rfl
  | cons a t =>
    have h1 : List.dropWhile isLineTerm ((a :: t) ++ ['\n']) = (a :: t) ++ ['\n'] := by
      rw [List.cons_append]
      exact List.dropWhile_cons_of_neg (by simp [h a (by simp)])
    rw [h1]
    have h2 : ((a :: t) ++ ['\n']).reverse = '\n' :: (a :: t).reverse := by
      rw [List.reverse_append]
      rfl
    rw [h2, List.dropWhile_cons_of_pos (by decide)]
    rw [dropWhile_eq_self_all ((a :: t).reverse)
      (fun c hc => h c (List.mem_reverse.mp hc))]
    exact List.reverse_reverse _

/-- C3: in data mode a copy-block line is decoded by collapsing each doubled
backslash, removing only the line terminator, and splitting on horizontal
tabs; consequently a row of tab-free fields encoded with the bulk-escaping
convention decodes back to exactly its fields, preserving leading and
trailing spaces. -/
theorem claim3_copy_line_decoding :
    (∀ (body : List Char), (∀ c ∈ body, isLineTerm c = false) →
      decodeCopyLine (body ++ ['\n']) = splitTab (collapseDoubleBackslash body))
    ∧ (∀ (fields : List (List Char)), fields ≠ [] →
      (∀ f ∈ fields, ∀ c ∈ f, c ≠ '\t' ∧ isLineTerm c = false) →
      decodeCopyLine (joinTab (fields.map escapeBackslash) ++ ['\n']) = fields) := by
  constructor
  · intro body hbody
    unfold decodeCopyLine
    rw [collapse_append_single '\n' (by decide) body]
    rw [goTrimCRLF_append_newline (collapseDoubleBackslash body)
      (fun c hc => hbody c (collapse_subset body c hc))]
  · intro fields hne hfields
    unfold decodeCopyLine
    rw [collapse_append_single '\n' (by decide)]
    have hcj : collapseDoubleBackslash (joinTab (fields.map escapeBackslash)) =
        joinTab fields := by
      clear hne hfields
      induction fields with
      | nil => rfl
      | cons f rest ih =>
        cases rest with
        | nil =>
          show collapseDoubleBackslash (escapeBackslash f) = f
          have hce := collapse_escape [] f
          simpa [collapseDoubleBackslash] using hce
        | cons g rest' =>
          show collapseDoubleBackslash
            (escapeBackslash f ++ '\t' :: joinTab ((g :: rest').map escapeBackslash)) =
            f ++ '\t' :: joinTab (g :: rest')
          rw [collapse_escape _ f, collapse_cons_ne '\t' _ (by decide), ih]
    rw [hcj]
    have hmem : ∀ c ∈ joinTab fields, isLineTerm c = false := by
      intro c hc
      rcases mem_joinTab fields c hc with h1 | ⟨f, hf, hcf⟩
      · subst h1; decide
      · exact (hfields f hf c hcf).2
    rw [goTrimCRLF_append_newline (joinTab fields) hmem]
    exact splitTab_joinTab fields hne (fun f hf c hc => (hfields f hf c hc).1)

/-- Witness for C3: the line `" a \tb\\\\c" + LF` (a field with significant
spaces and a field with an escaped backslash) decodes to the original
fields. -/
theorem claim3_witness :
    decodeCopyLine (joinTab ([" a ".data, "b\\c".data].map escapeBackslash) ++ ['\n']) =
      [" a ".data, "b\\c".data]
    ∧ decodeCopyLine (" a \tb".data ++ ['\n']) =
      splitTab (collapseDoubleBackslash " a \tb".data) := by
  constructor
  · exact claim3_copy_line_decoding.2 [" a ".data, "b\\c".data] (by decide) (by decide)
  · exact claim3_copy_line_decoding.1 " a \tb".data (by decide)

/-! ## C2: the chunk-reading loop. -/

theorem readAndParseChunkAux_reparse_step
    (parse : List Char → Option (List PStmt)) (conv : Conv)
    (acc : List (List Char)) (b : List Char) (rest : List (List Char))
    (hcon : b.contains ';' = true)
    (hpar : parse (acc ++ [b]).flatten = none) :
    readAndParseChunkAux parse conv acc (b :: rest) =
      readAndParseChunkAux parse { conv with reparsed := conv.reparsed + 1 }
        (acc ++ [b]) rest := by
  simp only [readAndParseChunkAux, hcon, hpar, eq_self_iff_true, if_true]

theorem readAndParseChunkAux_error_iff
    (parse : List Char → Option (List PStmt)) :
    ∀ (lines : List (List Char)) (conv : Conv) (acc : List (List Char)),
    (readAndParseChunkAux parse conv acc lines).isError = true ↔
      ((∀ (pre : List (List Char)) (x : List Char) (suf : List (List Char)),
        lines = pre ++ x :: suf → x.contains ';' = true →
        parse ((acc ++ pre) ++ [x]).flatten = none)
      ∧ parse (acc ++ lines).flatten = none) := by
  intro lines
  induction lines with
  | nil =>
    intro conv acc
    have hflat : (acc ++ [[]]).flatten = (acc ++ ([] : List (List Char))).flatten := by
      simp
    have haux : (readAndParseChunkAux parse conv acc []).isError = true ↔
        parse ((acc ++ ([] : List (List Char))).flatten) = none := by
      simp only [readAndParseChunkAux, hflat]
      cases hp : parse ((acc ++ ([] : List (List Char))).flatten) with
      | none => simp [ChunkResult.isError]
      | some st => simp [ChunkResult.isError]
    rw [haux]
    constructor
    · intro hfail
      refine ⟨?_, hfail⟩
      intro pre x suf heq _
      exact absurd heq (by simp)
    · exact fun h => h.2
  | cons b rest ih =>
    intro conv acc
    by_cases hcon : b.contains ';' = true
    · cases hp : parse ((acc ++ [b]).flatten) with
      | some st =>
        have haux : readAndParseChunkAux parse conv acc (b :: rest) =
            .okR (acc ++ [b]).flatten st conv rest := by
          simp only [readAndParseChunkAux, hcon, hp, eq_self_iff_true, if_true]
        rw [haux]
        constructor
        · intro herr
          exact absurd herr (by simp [ChunkResult.isError])
        · rintro ⟨hall, _⟩
          exfalso
          have h0 := hall [] b rest (by simp) hcon
          rw [show ((acc ++ []) ++ [b]) = acc ++ [b] from by simp] at h0
          rw [hp] at h0
          cases h0
      | none =>
        rw [readAndParseChunkAux_reparse_step parse conv acc b rest hcon hp,
          ih _ (acc ++ [b])]
        constructor
        · rintro ⟨hall', hfail'⟩
          refine ⟨?_, ?_⟩
          · intro pre x suf heq hxcon
            cases pre with
            | nil =>
              simp only [List.nil_append] at heq
              obtain ⟨hbx, _⟩ := List.cons.inj heq
              subst hbx
              rw [show ((acc ++ []) ++ [b]) = acc ++ [b] from by simp]
              exact hp
            | cons p pre' =>
              simp only [List.cons_append] at heq
              obtain ⟨hbp, hrest⟩ := List.cons.inj heq
              subst hbp
              have h1 := hall' pre' x suf hrest hxcon
              rw [show ((acc ++ (b :: pre')) ++ [x]) =
                (((acc ++ [b]) ++ pre') ++ [x]) from by simp]
              exact h1
          · rw [show (acc ++ (b :: rest)) = ((acc ++ [b]) ++ rest) from by simp]
            exact hfail'
        · rintro ⟨hall, hfail⟩
          refine ⟨?_, ?_⟩
          · intro pre x suf heq hxcon
            have h1 := hall (b :: pre) x suf (by rw [heq]; simp) hxcon
            rw [show (((acc ++ [b]) ++ pre) ++ [x]) =
              ((acc ++ (b :: pre)) ++ [x]) from by simp]
            exact h1
          · rw [show ((acc ++ [b]) ++ rest) = (acc ++ (b :: rest)) from by simp]
            exact hfail
    · have hconf : b.contains ';' = false := by
        cases hcb : b.contains ';'
        · rfl
        · exact absurd hcb hcon
      have haux : readAndParseChunkAux parse conv acc (b :: rest) =
          readAndParseChunkAux parse conv (acc ++ [b]) rest := by
        simp only [readAndParseChunkAux, hconf, Bool.false_eq_true, if_false]
      rw [haux, ih conv (acc ++ [b])]
      constructor
      · rintro ⟨hall', hfail'⟩
        refine ⟨?_, ?_⟩
        · intro pre x suf heq hxcon
          cases pre with
          | nil =>
            simp only [List.nil_append] at heq
            obtain ⟨hbx, _⟩ := List.cons.inj heq
            subst hbx
            rw [hconf] at hxcon
            cases hxcon
          | cons p pre' =>
            simp only [List.cons_append] at heq
            obtain ⟨hbp, hrest⟩ := List.cons.inj heq
            subst hbp
            have h1 := hall' pre' x suf hrest hxcon
            rw [show ((acc ++ (b :: pre')) ++ [x]) =
              (((acc ++ [b]) ++ pre') ++ [x]) from by simp]
            exact h1
        · rw [show (acc ++ (b :: rest)) = ((acc ++ [b]) ++ rest) from by simp]
          exact hfail'
      · rintro ⟨hall, hfail⟩
        refine ⟨?_, ?_⟩
        · intro pre x suf heq hxcon
          have h1 := hall (b :: pre) x suf (by rw [heq]; simp) hxcon
          rw [show (((acc ++ [b]) ++ pre) ++ [x]) =
            ((acc ++ (b :: pre)) ++ [x]) from by simp]
          exact h1
        · rw [show ((acc ++ [b]) ++ rest) = (acc ++ (b :: rest)) from by simp]
          exact hfail

/-- C2: a parse failure of the accumulated buffer at a semicolon trigger is
non-fatal while more input remains — the loop continues with the `Reparsed`
counter incremented and one more line absorbed — and the loop yields the
fatal error exactly when every triggered parse attempt fails, including the
final one at end of stream, i.e. when end of stream is reached with an
unparsable residual buffer. -/
theorem claim2_chunk_loop (parse : List Char → Option (List PStmt)) :
    (∀ (conv : Conv) (acc : List (List Char)) (b : List Char)
       (rest : List (List Char)),
      b.contains ';' = true →
      parse (acc ++ [b]).flatten = none →
      readAndParseChunkAux parse conv acc (b :: rest) =
        readAndParseChunkAux parse { conv with reparsed := conv.reparsed + 1 }
          (acc ++ [b]) rest)
    ∧ (∀ (conv : Conv) (lines : List (List Char)),
      (readAndParseChunk parse conv lines).isError = true ↔
        ((∀ (pre : List (List Char)) (x : List Char) (suf : List (List Char)),
          lines = pre ++ x :: suf → x.contains ';' = true →
          parse (pre ++ [x]).flatten = none)
        ∧ parse lines.flatten = none)) := by
  constructor
  · exact readAndParseChunkAux_reparse_step parse
  · intro conv lines
    rw [show readAndParseChunk parse conv lines =
      readAndParseChunkAux parse conv [] lines from rfl]
    rw [readAndParseChunkAux_error_iff parse lines conv []]
    constructor
    · rintro ⟨hall, hfail⟩
      refine ⟨?_, by simpa using hfail⟩
      intro pre x suf heq hxcon
      have h1 := hall pre x suf heq hxcon
      simpa using h1
    · rintro ⟨hall, hfail⟩
      refine ⟨?_, by simpa using hfail⟩
      intro pre x suf heq hxcon
      have h1 := hall pre x suf heq hxcon
      simpa using h1

/-- Witness for C2: with a parser accepting only the two-line buffer
`"x;y\n" ++ "z;\n"`, the first semicolon trigger fails and is absorbed with
one reparse, and the loop errors exactly on the truncated stream. -/
theorem claim2_witness :
    readAndParseChunkAux
      (fun s => if s = "x;y\nz;\n".data then some [] else none)
      sampleConv [] ["x;y\n".data, "z;\n".data] =
      readAndParseChunkAux
        (fun s => if s = "x;y\nz;\n".data then some [] else none)
        { sampleConv with reparsed := sampleConv.reparsed + 1 }
        ["x;y\n".data] ["z;\n".data]
    ∧ (readAndParseChunk
        (fun s => if s = "x;y\nz;\n".data then some [] else none)
        sampleConv ["x;y\n".data]).isError = true := by
  constructor
  · exact (claim2_chunk_loop _).1 sampleConv [] "x;y\n".data ["z;\n".data]
      (by decide) (by rfl)
  · refine ((claim2_chunk_loop _).2 sampleConv ["x;y\n".data]).mpr ⟨?_, by rfl⟩
    intro pre x suf heq hxcon
    have hpre : pre = [] := by
      cases pre with
      | nil => rfl
      | cons p pre' =>
        exfalso
        simp only [List.cons_append] at heq
        obtain ⟨_, hrest⟩ := List.cons.inj heq
        exact absurd hrest (by simp)
    subst hpre
    simp only [List.nil_append] at heq
    obtain ⟨hx, _⟩ := List.cons.inj heq
    subst hx
    rfl

end HarbourBridge
